import Mathlib

/-!
Verification of the Methuselah-Pattern-Finder repository (Conway's Game of
Life engine plus a genetic-algorithm optimizer) against its natural-language
specification.  The Python sources `GameOfLife.py` and `GeneticAlgorithm.py`
are shallowly embedded below: numpy arrays become `List Nat`, Python floats
become `ℚ`, Python sets become duplicate-free lists in iteration order, the
pseudo-random generator becomes explicit oracle arguments, and Python
exceptions become `Except String`.
-/

namespace GoL

/-- A flattened N×N grid, exactly as the Python code stores it
(`numpy` 1D array of 0/1 cells, or a tuple of ints). -/
abbrev Config := List Nat

/-- Toroidal flattening of 2-D coordinates: Python's `(r % N, c % N)` on
possibly negative `int` indices (Python `%` on ints is the Euclidean mod,
which is `Int.emod` in Lean), then `row * N + col`.  This is the index
arithmetic performed by `scipy.signal.convolve2d(..., boundary='wrap')`. -/
def wrap2 (N : Nat) (r c : Int) : Nat :=
  (r % (N : Int)).toNat * N + (c % (N : Int)).toNat

/-- `GameOfLife._count_alive_neighbors`: convolution of the grid with the
kernel `[[1,1,1],[1,0,1],[1,1,1]]` under periodic (wrap) boundary
conditions, written out term by term (the kernel is symmetric, so the
convolution equals the correlation; the center tap has weight 0 and is
omitted).  `i` is the flat index of the cell, `r = i / N`, `c = i % N`. -/
def countAliveNeighbors (N : Nat) (g : Config) (i : Nat) : Nat :=
  let r : Int := (i : Int) / (N : Int)
  let c : Int := (i : Int) % (N : Int)
  g.getD (wrap2 N (r - 1) (c - 1)) 0 + g.getD (wrap2 N (r - 1) c) 0 +
    g.getD (wrap2 N (r - 1) (c + 1)) 0 +
    g.getD (wrap2 N r (c - 1)) 0 + g.getD (wrap2 N r (c + 1)) 0 +
    g.getD (wrap2 N (r + 1) (c - 1)) 0 + g.getD (wrap2 N (r + 1) c) 0 +
    g.getD (wrap2 N (r + 1) (c + 1)) 0

/-- The eight neighbor offsets of a cell, used to state the specification
side of the neighbor-count contract. -/
def neighborOffsets : List (Int × Int) :=
  [(-1, -1), (-1, 0), (-1, 1), (0, -1), (0, 1), (1, -1), (1, 0), (1, 1)]

/-- Specification-side neighbor count: the number of live cells among the
8 toroidal (wrap-around) neighbors of cell `i` (for a 0/1 grid, the sum of
the neighbor values is that number). -/
def specNeighborSum (N : Nat) (g : Config) (i : Nat) : Nat :=
  (neighborOffsets.map (fun o =>
    g.getD (wrap2 N ((i : Int) / (N : Int) + o.1) ((i : Int) % (N : Int) + o.2)) 0)).sum

/-- `GameOfLife._compute_next_generation`: a live cell (value 1) with 2 or 3
alive neighbors survives, a dead cell (value 0) with exactly 3 alive
neighbors is born, every other cell is dead (`np.where(survive | birth, 1, 0)`). -/
def computeNextGeneration (N : Nat) (g : Config) : Config :=
  (List.range (N * N)).map (fun i =>
    let cnt := countAliveNeighbors N g i
    let survive := g.getD i 0 = 1 ∧ (cnt = 2 ∨ cnt = 3)
    let birth := g.getD i 0 = 0 ∧ cnt = 3
    if survive ∨ birth then 1 else 0)

/-- The mutable state of one `GameOfLife` instance (the attributes set in
`__init__` and updated by `step` and `run`).  `unique_states` is a Python
set of grid tuples of which only membership and insertion are used, so it is
modelled as a list. -/
structure SimState where
  gridSize : Nat
  grid : Config
  history : List Config
  stableCount : Nat
  lifespan : Nat
  isStatic : Bool
  isPeriodic : Bool
  aliveHistory : List Nat
  uniqueStates : List Config
deriving DecidableEq

/-- `GameOfLife.__init__` with an explicit `initial_state` (the length
check is performed by the caller `GeneticAlgorithm.evaluate`, which we model
separately). -/
def initSim (N : Nat) (cfg : Config) : SimState :=
  { gridSize := N
    grid := cfg
    history := []
    stableCount := 0
    lifespan := 0
    isStatic := false
    isPeriodic := false
    aliveHistory := [cfg.sum]
    uniqueStates := [cfg] }

/-- `GameOfLife.step`: compute the next generation; if it equals the
current grid, mark static; else if it was already visited, mark periodic;
otherwise advance the grid, append the *current* (pre-step) state to the
history, and record the new state as visited. -/
def simStep (s : SimState) : SimState :=
  let current := s.grid
  let next := computeNextGeneration s.gridSize current
  if next = current then
    { s with isStatic := true }
  else if next ∈ s.uniqueStates then
    { s with isPeriodic := true }
  else
    { s with grid := next
             history := s.history ++ [current]
             uniqueStates := next :: s.uniqueStates }

/-- The body of one iteration of the `while` loop in `GameOfLife.run`, in
the case where the grid still has live cells: record the alive-cell count,
append the current state to the history, bump `stable_count` (if a terminal
flag is set) or `lifespan` (otherwise), then perform one `step`. -/
def runIteration (s : SimState) : SimState :=
  let alive := s.grid.sum
  let s1 := { s with aliveHistory := s.aliveHistory ++ [alive]
                     history := s.history ++ [s.grid] }
  let s2 := if s1.isPeriodic || s1.isStatic then
              { s1 with stableCount := s1.stableCount + 1 }
            else
              { s1 with lifespan := s1.lifespan + 1 }
  simStep s2

/-- The `while` loop of `GameOfLife.run`.  The fuel argument models the
`limiter` counter (initially `game_iteration_limit`); the loop also exits
once a terminal flag is set and `stable_count` has reached
`max_stable_generations = 10`, and it `break`s out immediately (after
recording a 0 alive count) when all cells are dead. -/
def runLoop : Nat → SimState → SimState
  | 0, s => s
  | limiter + 1, s =>
    if (!s.isStatic && !s.isPeriodic) || s.stableCount < 10 then
      if s.grid.sum = 0 then
        { s with isStatic := true, aliveHistory := s.aliveHistory ++ [0] }
      else
        runLoop limiter (runIteration s)
    else s

/-- `GameOfLife.run` with the source's `game_iteration_limit = 150000`. -/
def simRun (s : SimState) : SimState := runLoop 150000 s

/-- A grid with exactly one live cell, at flat index `p`. -/
def singleCell (n p : Nat) : Config := (List.replicate n 0).set p 1

/-- The eight toroidal neighbor positions of cell `i`, as flat indices. -/
def posList (N i : Nat) : List Nat :=
  neighborOffsets.map
    (fun o => wrap2 N ((i : Int) / (N : Int) + o.1) ((i : Int) % (N : Int) + o.2))


end GoL

namespace GA

open GoL

/-- The constructor parameters of `GeneticAlgorithm` read by the embedded
operations (Python floats become rationals). -/
structure GAParams where
  gridSize : Nat
  populationSize : Nat
  lifespanWeight : ℚ
  aliveCellsWeight : ℚ
  aliveGrowthWeight : ℚ
  stablenessWeight : ℚ
  penaltyWeight : ℚ
  mutationRateLowerLimit : ℚ
deriving DecidableEq

/-- One record of `configuration_cache`: the fields stored by
`GeneticAlgorithm.evaluate`. -/
structure EvalRecord where
  fitnessScore : ℚ
  history : List Config
  lifespan : Nat
  aliveGrowth : ℚ
  maxAliveCellsCount : Nat
  isStatic : Bool
  isPeriodic : Bool
  stableness : ℚ
  initialLivingCellsCount : Nat
deriving DecidableEq

/-- The memoization cache `configuration_cache`: an insertion-ordered map
from configurations to evaluation records (a Python dict). -/
abbrev Cache := List (Config × EvalRecord)

/-- `GeneticAlgorithm.calc_fitness`. -/
def calcFitness (p : GAParams) (lifespan maxAliveCellsCount : Nat)
    (aliveGrowth stableness : ℚ) (initialLivingCellsCount : Nat) : ℚ :=
  let lifespanScore := (lifespan : ℚ) * p.lifespanWeight
  let aliveCellsScore := (maxAliveCellsCount : ℚ) * p.aliveCellsWeight
  let growthScore := aliveGrowth * p.aliveGrowthWeight
  let stablenessScore := stableness * p.stablenessWeight
  let largeConfigurationPenalty :=
    1 / max 1 ((initialLivingCellsCount : ℚ) * p.penaltyWeight)
  (lifespanScore + aliveCellsScore + growthScore + stablenessScore) *
    largeConfigurationPenalty

/-- The loop of `max_difference_with_distance` (local function in
`evaluate`): `j` walks the list, `minIndex` is the running-minimum prefix
index, `maxValue` (`none` standing for the initial `float(-inf)`) is the
best `(lst[j] - lst[min_index]) * (j - min_index)` seen so far, and `dis`
is the `j - min_index` at which that maximum was first attained.  The last
argument counts the remaining loop iterations. -/
def mdwdGo (lst : List Int) : Nat → Nat → Option Int → Nat → Nat → Option Int × Nat
  | _, _, maxValue, dis, 0 => (maxValue, dis)
  | j, minIndex, maxValue, dis, steps + 1 =>
    let diff := (lst.getD j 0 - lst.getD minIndex 0) * ((j : Int) - (minIndex : Int))
    let better := match maxValue with
      | none => true
      | some m => decide (m < diff)
    let maxValue2 := if better then some diff else maxValue
    let dis2 := if better then j - minIndex else dis
    let minIndex2 := if lst.getD j 0 < lst.getD minIndex 0 then j else minIndex
    mdwdGo lst (j + 1) minIndex2 maxValue2 dis2 steps

/-- `max_difference_with_distance`: run the loop over indices `1..len-1`
and return `max(max_value, 0) / dis`.  (For lists of length below 2 the
Python code would raise `ZeroDivisionError` on `0 / 0`; in the embedding
that division yields 0.  Every call site passes an `alive_history` of
length at least 2.) -/
def maxDifferenceWithDistance (lst : List Int) : ℚ :=
  let r := mdwdGo lst 1 0 none 0 (lst.length - 1)
  let floored : Int := match r.1 with
    | none => 0
    | some m => max m 0
  (floored : ℚ) / (r.2 : ℚ)

/-- The record built by a cache-missing `GeneticAlgorithm.evaluate` call:
one full `GameOfLife` run plus the derived statistics.
`max(game.alive_history)` is modelled by `foldl max 0`, which agrees with
Python `max` on the nonempty lists of naturals produced by `run`. -/
def freshEval (p : GAParams) (cfg : Config) : EvalRecord :=
  let game := simRun (initSim p.gridSize cfg)
  let maxAliveCellsCount := game.aliveHistory.foldl max 0
  let initialLivingCellsCount := cfg.sum
  let aliveGrowth := maxDifferenceWithDistance (game.aliveHistory.map Int.ofNat)
  let stableness := (game.stableCount : ℚ) / 10
  let fitnessScore := calcFitness p game.lifespan maxAliveCellsCount aliveGrowth
    stableness initialLivingCellsCount
  { fitnessScore := fitnessScore
    history := game.history
    lifespan := game.lifespan
    aliveGrowth := aliveGrowth
    maxAliveCellsCount := maxAliveCellsCount
    isStatic := game.isStatic
    isPeriodic := game.isPeriodic
    stableness := stableness
    initialLivingCellsCount := initialLivingCellsCount }

/-- Specification side of `alive_growth` (following the spec text): the
running-minimum prefix index used for index `j` — the index of the first
minimum of `lst[0..j-1]`, tracked incrementally. -/
def runningMinIdx (lst : List Int) : Nat → Nat
  | 0 => 0
  | 1 => 0
  | j + 2 =>
    if lst.getD (j + 1) 0 < lst.getD (runningMinIdx lst (j + 1)) 0 then j + 1
    else runningMinIdx lst (j + 1)

/-- Specification side: the candidate value `(count[j] - count[i]) * (j - i)`
with `i` the running-minimum prefix index for `j`. -/
def growthCand (lst : List Int) (j : Nat) : Int :=
  (lst.getD j 0 - lst.getD (runningMinIdx lst j) 0) *
    ((j : Int) - (runningMinIdx lst j : Int))

/-- Specification side of the `alive_growth` contract, following the
spec's words: the maximum of `(count[j] - count[i]) * (j - i)` over
`1 ≤ j < n` with `i` the running-minimum prefix index, floored at 0 and
divided by the `j - i` distance at which that maximum is first attained. -/
def specAliveGrowth (lst : List Int) : ℚ :=
  match (List.range' 1 (lst.length - 1)).map (fun j => growthCand lst j) with
  | [] => 0
  | c :: cs =>
    let maxVal := cs.foldl max c
    match (List.range' 1 (lst.length - 1)).find? (fun j => growthCand lst j = maxVal) with
    | none => 0
    | some jstar =>
      ((max maxVal 0 : Int) : ℚ) / ((jstar - runningMinIdx lst jstar : Nat) : ℚ)

/-- The value held in `max_value` after the loop of
`max_difference_with_distance` has processed indices `1..k` (defined for
`k ≥ 1`; the first two equations coincide). -/
def maxAfter (lst : List Int) : Nat → Int
  | 0 => growthCand lst 1
  | 1 => growthCand lst 1
  | j + 2 =>
    if maxAfter lst (j + 1) < growthCand lst (j + 2) then growthCand lst (j + 2)
    else maxAfter lst (j + 1)

/-- The value held in `dis` after the loop has processed indices `1..k`. -/
def disAfter (lst : List Int) : Nat → Nat
  | 0 => 1
  | 1 => 1
  | j + 2 =>
    if maxAfter lst (j + 1) < growthCand lst (j + 2) then
      (j + 2) - runningMinIdx lst (j + 2)
    else disAfter lst (j + 1)

/-- `GeneticAlgorithm.evaluate`: cached-result lookup first, then the
length check (`ValueError` on mismatch), then the simulation, whose record
is appended to the cache.  The returned `Bool` records whether this call
constructed and ran a simulation. -/
def evaluate (p : GAParams) (cache : Cache) (cfg : Config) :
    Except String EvalRecord × Cache × Bool :=
  match cache.lookup cfg with
  | some r => (.ok r, cache, false)
  | none =>
    if cfg.length ≠ p.gridSize * p.gridSize then
      (.error "Configuration size mismatch", cache, false)
    else
      (.ok (freshEval p cfg), cache ++ [(cfg, freshEval p cfg)], true)

/-- A sequence of `evaluate` calls (as performed over a whole optimization
run), threading the cache; a raised error aborts the run.  Returns the
final cache and the list of configurations for which a simulation was
actually constructed and run. -/
def evalCalls (p : GAParams) : Cache → List Config → Cache × List Config
  | cache, [] => (cache, [])
  | cache, c :: cs =>
    match evaluate p cache c with
    | (.error _, cache2, _) => (cache2, [])
    | (.ok _, cache2, b) =>
      let rest := evalCalls p cache2 cs
      (rest.1, (if b then [c] else []) ++ rest.2)

/-- A Python list comprehension `[self.evaluate(c)[..fitness..] for c in cs]`,
threading the cache; an exception aborts the comprehension. -/
def evalScores (p : GAParams) : Cache → List Config → Except String (List (Config × ℚ)) × Cache
  | cache, [] => (.ok [], cache)
  | cache, c :: cs =>
    match evaluate p cache c with
    | (.error e, cache2, _) => (.error e, cache2)
    | (.ok r, cache2, _) =>
      match evalScores p cache2 cs with
      | (.ok l, cache3) => (.ok ((c, r.fitnessScore) :: l), cache3)
      | (.error e, cache3) => (.error e, cache3)

/-- Python `max(pairs, key=fitness)`: the first pair with maximal fitness
(`none` on the empty list, where Python raises). -/
def pyMaxBySnd : List (Config × ℚ) → Option (Config × ℚ)
  | [] => none
  | x :: xs =>
    match pyMaxBySnd xs with
    | none => some x
    | some b => if b.2 > x.2 then some b else some x

/-- One insertion step of a stable descending sort: place `x` before the
first element whose fitness does not exceed it. -/
def insertDesc (x : Config × ℚ) : List (Config × ℚ) → List (Config × ℚ)
  | [] => [x]
  | y :: ys => if y.2 ≤ x.2 then x :: y :: ys else y :: insertDesc x ys

/-- Python `list.sort(key=fitness, reverse=True)`: a stable sort,
descending by fitness.  A stable sort is extensionally determined by the
key, so this structural insertion sort produces exactly the list the
Python sort produces. -/
def pySortDesc (l : List (Config × ℚ)) : List (Config × ℚ) :=
  l.foldr insertDesc []

/-- Oracle data for one invocation of a selection method: the
`random.sample` indices and the `random.choices` index. -/
structure SelOracle where
  sampleIdx : Nat → Nat
  choiceIdx : Nat

/-- `tournament_selection` (default `tournament_size = 3`):
`random.sample(list(population), k=3)` raises `ValueError` when the
population has fewer than 3 members; otherwise the oracle picks the three
candidates and the fittest (first maximal) wins. -/
def tournamentSelection (p : GAParams) (cache : Cache) (pop : List Config)
    (sampleIdx : Nat → Nat) : Except String Config × Cache :=
  if pop.length < 3 then (.error "ValueError: sample larger than population", cache)
  else
    match evalScores p cache ((List.range 3).map (fun k => pop.getD (sampleIdx k % pop.length) [])) with
    | (.error e, cache2) => (.error e, cache2)
    | (.ok scored, cache2) =>
      match pyMaxBySnd scored with
      | none => (.error "ValueError: max of empty sequence", cache2)
      | some best => (.ok best.1, cache2)

/-- `roulette_wheel_selection`.  When the total fitness is 0 the source
executes `random.choice(self.population)` where `self.population` is a
Python `set`; `random.choice(seq)` evaluates `seq[...]`, and a set does not
support indexing, so that call raises `TypeError` instead of returning a
uniform member.  The nonzero branch `random.choices(list(...), weights, k=1)`
is modelled by an oracle index into the population list. -/
def rouletteWheelSelection (p : GAParams) (cache : Cache) (pop : List Config)
    (choiceIdx : Nat) : Except String Config × Cache :=
  match evalScores p cache pop with
  | (.error e, cache2) => (.error e, cache2)
  | (.ok scored, cache2) =>
    if (scored.map Prod.snd).sum = 0 then
      (.error "TypeError: random.choice on a set object", cache2)
    else if pop.isEmpty then (.error "IndexError: empty population", cache2)
    else (.ok (pop.getD (choiceIdx % pop.length) []), cache2)

/-- `rank_based_selection`: sort by fitness descending, then
`random.choices` over the sorted list with rank weights (the weights only
shape the distribution; the oracle index picks the member).  Python raises
`IndexError` on an empty population. -/
def rankBasedSelection (p : GAParams) (cache : Cache) (pop : List Config)
    (choiceIdx : Nat) : Except String Config × Cache :=
  match evalScores p cache pop with
  | (.error e, cache2) => (.error e, cache2)
  | (.ok scored, cache2) =>
    if (pySortDesc scored).isEmpty then (.error "IndexError: empty population", cache2)
    else
      (.ok (((pySortDesc scored).map Prod.fst).getD
        (choiceIdx % (pySortDesc scored).length) []), cache2)

/-- Dispatch on the selection method chosen by `random.choices` over
`[tournament, roulette, rank-based]` (weights 0.3/0.3/0.4). -/
def runSelection (p : GAParams) (cache : Cache) (pop : List Config)
    (method : Nat) (o : SelOracle) : Except String Config × Cache :=
  if method = 0 then tournamentSelection p cache pop o.sampleIdx
  else if method = 1 then rouletteWheelSelection p cache pop o.choiceIdx
  else rankBasedSelection p cache pop o.choiceIdx

/-- `select_parents`: pick one selection method and call it twice. -/
def selectParents (p : GAParams) (cache : Cache) (pop : List Config)
    (method : Nat) (o1 o2 : SelOracle) : Except String (Config × Config) × Cache :=
  match runSelection p cache pop method o1 with
  | (.error e, cache2) => (.error e, cache2)
  | (.ok par1, cache2) =>
    match runSelection p cache2 pop method o2 with
    | (.error e, cache3) => (.error e, cache3)
    | (.ok par2, cache3) => (.ok (par1, par2), cache3)

/-- `crossover_basic`: alternate parents by parity of the flat index.
(The Python indexing `parent[i]` assumes parents of length `N*N`, which
every call site guarantees; `getD` matches it on such inputs.) -/
def crossoverBasic (N : Nat) (par1 par2 : Config) : Config :=
  (List.range (N * N)).map (fun i => if i % 2 = 0 then par1.getD i 0 else par2.getD i 0)

/-- The row-block `parent[i*N : (i+1)*N]` used by the block crossovers. -/
def rowBlock (N : Nat) (par : Config) (i : Nat) : Config :=
  (par.drop (i * N)).take N

/-- The child-length repair in `crossover_simple`/`crossover_complex`:
pad with dead cells up to `total_cells` when the assembled child has the
wrong length (Python `child + [0] * (total - len(child))`, where a negative
repeat count yields the empty list, like truncated subtraction). -/
def padToLength (total : Nat) (l : Config) : Config :=
  if l.length ≠ total then l ++ List.replicate (total - l.length) 0 else l

/-- `crossover_simple`: length-check both parents (`ValueError` on
mismatch), alternate whole rows (even rows from parent 2, odd rows from
parent 1), then repair the length. -/
def crossoverSimple (N : Nat) (par1 par2 : Config) : Except String Config :=
  let totalCells := N * N
  if par1.length ≠ totalCells ∨ par2.length ≠ totalCells then
    .error "ValueError: parent configuration size mismatch"
  else
    let childBlocks := ((List.range N).map (fun i =>
      if i % 2 = 0 then rowBlock N par2 i else rowBlock N par1 i)).flatten
    .ok (padToLength totalCells childBlocks)

/-- `crossover_complex`: length-check both parents, then assemble the child
from row-blocks.  `sel1` and `sel2` are the index lists produced by the two
density-weighted `random.choices` draws (the density weights only shape the
distribution, so they appear here as oracle outputs), and `coin` is the
per-block 50/50 tiebreak; the length repair runs at the end. -/
def crossoverComplex (N : Nat) (par1 par2 : Config) (sel1 sel2 : List Nat)
    (coin : Nat → Bool) : Except String Config :=
  let totalCells := N * N
  if par1.length ≠ totalCells ∨ par2.length ≠ totalCells then
    .error "ValueError: parent configuration size mismatch"
  else
    let childBlocks := ((List.range N).map (fun i =>
      if i ∈ sel1 then rowBlock N par1 i
      else if i ∈ sel2 then rowBlock N par2 i
      else if coin i then rowBlock N par1 i else rowBlock N par2 i)).flatten
    .ok (padToLength totalCells childBlocks)

/-- Dispatch on the crossover method chosen by `random.choices` over
`[basic, simple, complex]` (weights 0.3/0.3/0.4). -/
def crossover (N : Nat) (par1 par2 : Config) (method : Nat) (sel1 sel2 : List Nat)
    (coin : Nat → Bool) : Except String Config :=
  if method = 0 then .ok (crossoverBasic N par1 par2)
  else if method = 1 then crossoverSimple N par1 par2
  else crossoverComplex N par1 par2 sel1 sel2 coin

/-- `mutate_basic`: flip each cell independently when the oracle coin for
that cell (Python `random.uniform(0,1) < min(0.5, mutation_rate*5)`) comes
up true; `0 if configuration[i] else 1` flips by truthiness. -/
def mutateBasic (flip : Nat → Bool) (cfg : Config) : Config :=
  (List.range cfg.length).map (fun i =>
    if flip i then (if cfg.getD i 0 ≠ 0 then 0 else 1) else cfg.getD i 0)

/-- `mutate_harsh`: pick a random contiguous wrapped run
(`cluster_size = randint(1, len)`, `start = randint(0, len-1)`) and
reassign each cell in it to a random bit.  (On an empty configuration the
Python `randint(1, 0)` would raise; configurations are nonempty at every
call site.) -/
def mutateHarsh (sizeDraw startDraw : Nat) (bits : Nat → Nat) (cfg : Config) : Config :=
  if cfg.length = 0 then cfg
  else
    let n := cfg.length
    let clusterSize := 1 + sizeDraw % n
    let start := startDraw % n
    (List.range clusterSize).foldl (fun acc j =>
      acc.set ((start + j) % n) (bits j % 2)) cfg

/-- The 3×3 neighborhood offsets flipped by `mutate_clusters`
(`for i in range(-1,2): for j in range(-1,2)`). -/
def blockOffsets : List (Int × Int) :=
  [(-1, -1), (-1, 0), (-1, 1), (0, -1), (0, 0), (0, 1), (1, -1), (1, 0), (1, 1)]

/-- `mutate_clusters`: `cluster_size = grid_size` iterations; each, when
its oracle coin comes up true, picks a random center and flips every cell
of the 3×3 toroidal neighborhood around it (reading the partially mutated
configuration, as the source does). -/
def mutateClusters (N : Nat) (doFlip : Nat → Bool) (centers : Nat → Nat × Nat)
    (cfg : Config) : Config :=
  (List.range N).foldl (fun acc k =>
    if doFlip k then
      let centerRow := (centers k).1 % N
      let centerCol := (centers k).2 % N
      blockOffsets.foldl (fun acc2 o =>
        let index := wrap2 N ((centerRow : Int) + o.1) ((centerCol : Int) + o.2)
        acc2.set index (if acc2.getD index 0 = 0 then 1 else 0)) acc
    else acc) cfg

/-- Oracle data for one mutation. -/
structure MutOracle where
  flip : Nat → Bool
  doFlip : Nat → Bool
  centers : Nat → Nat × Nat
  sizeDraw : Nat
  startDraw : Nat
  bits : Nat → Nat

/-- Dispatch on the mutation method chosen by `random.choices` over
`[basic, clusters, harsh]` (weights 0.3/0.3/0.4). -/
def mutate (N : Nat) (method : Nat) (o : MutOracle) (cfg : Config) : Config :=
  if method = 0 then mutateBasic o.flip cfg
  else if method = 1 then mutateClusters N o.doFlip o.centers cfg
  else mutateHarsh o.sizeDraw o.startDraw o.bits cfg

/-- Python `set.add` on a set modelled as a duplicate-free list in
insertion order. -/
def setAdd (s : List Config) (c : Config) : List Config :=
  if c ∈ s then s else s ++ [c]

/-- Python `set.update` / building a set from added elements. -/
def setUnion (s : List Config) (l : List Config) : List Config :=
  l.foldl setAdd s

/-- Python `set.difference`. -/
def setDiff (s t : List Config) : List Config :=
  s.filter (fun c => c ∉ t)

/-- Python `random.randint(a, b)` driven by an oracle draw: raises
`ValueError` on an empty range, otherwise yields a value in `[a, b]`. -/
def pyRandint (a b draw : Nat) : Except String Nat :=
  if b < a then .error "ValueError: empty range for randrange"
  else .ok (a + draw % (b - a + 1))

/-- Oracle draws for `enrich_population_with_variety`, indexed by the
generated configuration, and inner loop indices. -/
structure EnrichOracle where
  clNum : Nat → Nat
  clSize : Nat → Nat
  clCenter : Nat → Nat → Nat × Nat
  clOffset : Nat → Nat → Nat → Nat × Nat
  scCount : Nat → Nat
  scIdx : Nat → Nat → Nat
  bpCount : Nat → Nat
  bpStart : Nat → Nat × Nat
  bpFlip : Nat → Nat → Nat → Bool
  bpExtra : Nat → Nat → Nat

/-- One cluster-family configuration of
`enrich_population_with_variety`: `num_clusters = randint(1, N // 3)`
(raising for `N ≤ 2`), `cluster_size = randint(min(2, N), N)`, then for
each cluster a random center and `cluster_size` random offsets in
`[-1, 1]²`, each setting one toroidally wrapped cell alive. -/
def genClusterConfig (N t : Nat) (o : EnrichOracle) : Except String Config :=
  let totalCells := N * N
  let maxClusterAmount := N / 3
  let minClustersAmount := 1
  let maxClusterSize := N
  let minClusterSize := min 2 N
  match pyRandint minClustersAmount maxClusterAmount (o.clNum t) with
  | .error e => .error e
  | .ok numClusters =>
    match pyRandint minClusterSize maxClusterSize (o.clSize t) with
    | .error e => .error e
    | .ok clusterSize =>
      .ok ((List.range numClusters).foldl (fun acc c =>
        let centerRow := (o.clCenter t c).1 % N
        let centerCol := (o.clCenter t c).2 % N
        (List.range clusterSize).foldl (fun acc2 k =>
          let offsetRow : Int := -1 + ((o.clOffset t c k).1 % 3 : Nat)
          let offsetCol : Int := -1 + ((o.clOffset t c k).2 % 3 : Nat)
          acc2.set (wrap2 N ((centerRow : Int) + offsetRow) ((centerCol : Int) + offsetCol)) 1)
          acc) (List.replicate totalCells 0))

/-- One scattered-family configuration:
`scattered_cells = randint(1, (total_cells // 3 // 4) * 2)` (raising when
that upper bound is 0, i.e. for `N ≤ 3`), then that many sampled cell
indices are set alive (`random.sample` indices come from the oracle). -/
def genScatteredConfig (N t : Nat) (o : EnrichOracle) : Except String Config :=
  let totalCells := N * N
  let initialLiveCells := totalCells / 3
  let maxScatteredCells := initialLiveCells / 4 * 2
  let minScatteredCells := 1
  match pyRandint minScatteredCells maxScatteredCells (o.scCount t) with
  | .error e => .error e
  | .ok scatteredCells =>
    .ok ((List.range scatteredCells).foldl (fun acc k =>
      acc.set (o.scIdx t k % totalCells) 1) (List.replicate totalCells 0))

/-- One block-pattern-family configuration:
`pattern_cells = randint(1, (total_cells // 3 // 4) * 2)`, a random start
corner `randint(0, N-3)` (once `N ≥ 4`, the only sizes that reach this
draw), a 50/50 coin per offset cell, and a top-up of sampled dead cells
when fewer than `pattern_cells` came up alive. -/
def genBasicPatternConfig (N t : Nat) (o : EnrichOracle) : Except String Config :=
  let totalCells := N * N
  let initialLiveCells := totalCells / 3
  let maxPatternCells := initialLiveCells / 4 * 2
  let minPatternCells := 1
  match pyRandint minPatternCells maxPatternCells (o.bpCount t) with
  | .error e => .error e
  | .ok patternCells =>
    match pyRandint 0 (N - 3) (o.bpStart t).1 with
    | .error e => .error e
    | .ok startRow =>
      match pyRandint 0 (N - 3) (o.bpStart t).2 with
      | .error e => .error e
      | .ok startCol =>
        let base := (List.range N).foldl (fun acc i =>
          (List.range N).foldl (fun acc2 j =>
            if o.bpFlip t i j then
              acc2.set (((startRow + i) % N) * N + ((startCol + j) % N)) 1
            else acc2) acc) (List.replicate totalCells 0)
        let currentLiveCells := base.sum
        if currentLiveCells < patternCells then
          let deadCells := (List.range totalCells).filter (fun i => base.getD i 0 = 0)
          .ok ((List.range (patternCells - currentLiveCells)).foldl (fun acc k =>
            acc.set (deadCells.getD (o.bpExtra t k % deadCells.length) 0) 1) base)
        else .ok base

/-- Sequence `count` oracle-driven generator calls, index starting at `t`
(a Python `for` loop whose body may raise). -/
def genListGo (f : Nat → Except String Config) : Nat → Nat → Except String (List Config)
  | _, 0 => .ok []
  | t, k + 1 =>
    match f t with
    | .error e => .error e
    | .ok c =>
      match genListGo f (t + 1) k with
      | .error e => .error e
      | .ok cs => .ok (c :: cs)

/-- The configurations generated by `enrich_population_with_variety`
(in source order: clusters, then scattered, then block patterns); the
caller adds each to the population set. -/
def enrichVarietyList (N clustersTypeAmount scatterTypeAmount basicPatternsTypeAmount : Nat)
    (o : EnrichOracle) : Except String (List Config) :=
  match genListGo (fun t => genClusterConfig N t o) 0 clustersTypeAmount with
  | .error e => .error e
  | .ok cl =>
    match genListGo (fun t => genScatteredConfig N t o) 0 scatterTypeAmount with
    | .error e => .error e
    | .ok sc =>
      match genListGo (fun t => genBasicPatternConfig N t o) 0 basicPatternsTypeAmount with
      | .error e => .error e
      | .ok bp => .ok (cl ++ sc ++ bp)

/-- `enrich_population_with_variety` mutates `self.population` by adding
every generated configuration to the set. -/
def enrichPopulationWithVariety (N : Nat) (pop : List Config)
    (clustersTypeAmount scatterTypeAmount basicPatternsTypeAmount : Nat)
    (o : EnrichOracle) : Except String (List Config) :=
  match enrichVarietyList N clustersTypeAmount scatterTypeAmount basicPatternsTypeAmount o with
  | .error e => .error e
  | .ok gen => .ok (setUnion pop gen)

/-- `num_new_individuals = self.population_size // 4` in `populate`. -/
def numNewIndividuals (p : GAParams) : Nat := p.populationSize / 4

/-- The per-family amount `num_new_individuals // 3` passed by `populate`
to `enrich_population_with_variety`. -/
def enrichPerFamily (p : GAParams) : Nat := numNewIndividuals p / 3

/-- The batch of freshly generated individuals used by `populate`:
enrichment runs exactly when the count of recorded generation-statistics
entries (`len(self.generations_cache)`) is a multiple of 5, with
`num_new_individuals // 3` configurations from each of the three generator
families. -/
def populateEnrichBatch (p : GAParams) (genStatsCount : Nat) (eo : EnrichOracle) :
    Except String (List Config) :=
  if genStatsCount % 5 = 0 then
    enrichVarietyList p.gridSize (enrichPerFamily p) (enrichPerFamily p)
      (enrichPerFamily p) eo
  else .ok []

/-- Oracle data for one iteration of the child-generation loop in
`populate`. -/
structure IterOracle where
  method : Nat
  sel1 : SelOracle
  sel2 : SelOracle
  crossMethod : Nat
  crossSel1 : List Nat
  crossSel2 : List Nat
  crossCoin : Nat → Bool
  doMutate : Bool
  mutMethod : Nat
  mutOracle : MutOracle

/-- Step 1 of `populate`: `population_size` times, select two parents,
cross them over, maybe mutate (`random.uniform(0,1) < mutation_rate`, an
oracle coin here), and add the child to the new-population set. -/
def childrenLoop (p : GAParams) (pop : List Config) (io : Nat → IterOracle) :
    Cache → List Config → Nat → Except String (List Config) × Cache
  | cache, newPop, 0 => (.ok newPop, cache)
  | cache, newPop, k + 1 =>
    match selectParents p cache pop (io k).method (io k).sel1 (io k).sel2 with
    | (.error e, cache2) => (.error e, cache2)
    | (.ok (par1, par2), cache2) =>
      match crossover p.gridSize par1 par2 (io k).crossMethod (io k).crossSel1
          (io k).crossSel2 (io k).crossCoin with
      | .error e => (.error e, cache2)
      | .ok child0 =>
        let child := if (io k).doMutate then mutate p.gridSize (io k).mutMethod (io k).mutOracle child0
                     else child0
        childrenLoop p pop io cache2 (setAdd newPop child) k

/-- Step 3 and 4 of `populate`: evaluate the combined candidate list,
sort by fitness descending (a stable Python sort), keep the first
`population_size` entries and collapse them into a set. -/
def rankAndTrim (p : GAParams) (cache : Cache) (combined : List Config) :
    Except String (List Config) × Cache :=
  match evalScores p cache combined with
  | (.error e, cache2) => (.error e, cache2)
  | (.ok scored, cache2) =>
    let sorted := pySortDesc scored
    (.ok (((sorted.take p.populationSize).map Prod.fst).dedup), cache2)

/-- `GeneticAlgorithm.populate`: generate children; every fifth recorded
generation, enrich `self.population` itself with fresh individuals and
merge the newly added ones into the candidate set; then rank the combined
old and new populations and retain the top `population_size` unique
configurations. -/
def populate (p : GAParams) (genStatsCount : Nat) (cache : Cache)
    (pop : List Config) (io : Nat → IterOracle) (eo : EnrichOracle) :
    Except String (List Config) × Cache :=
  match childrenLoop p pop io cache [] p.populationSize with
  | (.error e, cache2) => (.error e, cache2)
  | (.ok newPop, cache2) =>
    match populateEnrichBatch p genStatsCount eo with
    | .error e => (.error e, cache2)
    | .ok fresh =>
      if genStatsCount % 5 = 0 then
        let pop2 := setUnion pop fresh
        let enriched := setDiff pop2 newPop
        let newPop2 := setUnion newPop enriched
        rankAndTrim p cache2 (pop2 ++ newPop2)
      else
        rankAndTrim p cache2 (pop ++ newPop)

/-- `GeneticAlgorithm.adjust_mutation_rate`:
`mutation_rate = max(lower_limit, min(1, (avg_fitness[g-1] / max(1, avg_fitness[g])) * mutation_rate))`. -/
def adjustMutationRate (p : GAParams) (rate prevAvgFitness curAvgFitness : ℚ) : ℚ :=
  let improvementRat := prevAvgFitness / max 1 curAvgFitness
  max p.mutationRateLowerLimit (min 1 (improvementRat * rate))

/-- `GeneticAlgorithm.check_for_stagnation`: no change for fewer than 10
generations; otherwise count the distinct average-fitness values over the
last 10 generations, scale the rate by 1.5 (full stagnation, capped at
0.5) or 1.2 (partial stagnation, capped at 0.5), and finally clamp to the
lower limit. -/
def checkForStagnation (p : GAParams) (rate : ℚ) (lastGeneration : Nat)
    (avgFitnessOf : Nat → ℚ) : ℚ :=
  if lastGeneration < 10 then rate
  else
    let avgFitness := (List.range' (lastGeneration - 10) 10).map avgFitnessOf
    let uniqueFitnessScores := avgFitness.dedup.length
    let totalGenerations := avgFitness.length
    let rate2 :=
      if uniqueFitnessScores = 1 then min (1 / 2) (rate * (3 / 2))
      else if (uniqueFitnessScores : ℚ) < (totalGenerations : ℚ) / 2 then
        min (1 / 2) (rate * (6 / 5))
      else rate
    max rate2 p.mutationRateLowerLimit

/-- A concrete parameter bundle (1×1 grid) used to exercise the
definitions on closed inputs. -/
def testParams : GAParams :=
  { gridSize := 1
    populationSize := 3
    lifespanWeight := 1
    aliveCellsWeight := 1
    aliveGrowthWeight := 1
    stablenessWeight := 1
    penaltyWeight := 1
    mutationRateLowerLimit := 1 / 10 }

/-- The concrete parameter bundle with `population_size = 10`. -/
def testParams10 : GAParams :=
  { testParams with populationSize := 10 }

/-- A trivial selection oracle. -/
def unitSelOracle : SelOracle :=
  { sampleIdx := fun _ => 0
    choiceIdx := 0 }

/-- A trivial mutation oracle. -/
def unitMutOracle : MutOracle :=
  { flip := fun _ => false
    doFlip := fun _ => false
    centers := fun _ => (0, 0)
    sizeDraw := 0
    startDraw := 0
    bits := fun _ => 0 }

/-- A trivial per-iteration oracle: rank-based selection, basic crossover,
no mutation. -/
def unitIterOracle : IterOracle :=
  { method := 2
    sel1 := unitSelOracle
    sel2 := unitSelOracle
    crossMethod := 0
    crossSel1 := []
    crossSel2 := []
    crossCoin := fun _ => false
    doMutate := false
    mutMethod := 0
    mutOracle := unitMutOracle }

/-- A trivial enrichment oracle. -/
def unitEnrichOracle : EnrichOracle :=
  { clNum := fun _ => 0
    clSize := fun _ => 0
    clCenter := fun _ _ => (0, 0)
    clOffset := fun _ _ _ => (0, 0)
    scCount := fun _ => 0
    scIdx := fun _ _ => 0
    bpCount := fun _ => 0
    bpStart := fun _ => (0, 0)
    bpFlip := fun _ _ _ => false
    bpExtra := fun _ _ => 0 }

end GA

namespace GoL

/-- The kernel-convolution neighbor count agrees with the sum of the grid
values at the 8 toroidal neighbor offsets. -/
lemma count_eq_specSum (N : Nat) (g : Config) (i : Nat) :
    countAliveNeighbors N g i = specNeighborSum N g i := by
  simp [countAliveNeighbors, specNeighborSum, neighborOffsets]
  ring_nf

lemma length_computeNextGeneration (N : Nat) (g : Config) :
    (computeNextGeneration N g).length = N * N := by
  simp [computeNextGeneration]

lemma getD_computeNextGeneration (N : Nat) (g : Config) (i : Nat) (hi : i < N * N) :
    (computeNextGeneration N g).getD i 0 =
      if (g.getD i 0 = 1 ∧ (countAliveNeighbors N g i = 2 ∨ countAliveNeighbors N g i = 3)) ∨
         (g.getD i 0 = 0 ∧ countAliveNeighbors N g i = 3) then 1 else 0 := by
  have hlen : i < (computeNextGeneration N g).length := by
    simpa [length_computeNextGeneration] using hi
  rw [List.getD_eq_getElem _ _ hlen]
  simp [computeNextGeneration, hi]

/-- For a 0/1 list, the sum equals the number of entries equal to 1. -/
lemma sum_eq_countP_of_binary :
    ∀ l : List Nat, (∀ x ∈ l, x = 0 ∨ x = 1) → l.sum = l.countP (fun x => x = 1)
  | [], _ => by simp
  | x :: l, h => by
    have hx := h x (by simp)
    have hl := sum_eq_countP_of_binary l (fun y hy => h y (by simp [hy]))
    rcases hx with hx | hx <;> simp [hx, hl, List.countP_cons] <;> omega

lemma getD_binary (g : Config) (hbin : ∀ x ∈ g, x = 0 ∨ x = 1) (q : Nat) :
    g.getD q 0 = 0 ∨ g.getD q 0 = 1 := by
  by_cases hq : q < g.length
  · exact hbin _ (by rw [List.getD_eq_getElem _ _ hq]; exact List.getElem_mem hq)
  · left
    exact List.getD_eq_default _ _ (by omega)

/-- Decomposing a flat toroidal index is injective: if `x*N + y = u*N + v`
with `y, v < N`, then `x = u` and `y = v`. -/
lemma flatten_inj (N x y u v : Nat) (hy : y < N) (hv : v < N)
    (h : x * N + y = u * N + v) : x = u ∧ y = v := by
  have h1 : (x * N + y) % N = (u * N + v) % N := by rw [h]
  rw [Nat.mul_comm x N, Nat.mul_comm u N, Nat.mul_add_mod, Nat.mul_add_mod,
    Nat.mod_eq_of_lt hy, Nat.mod_eq_of_lt hv] at h1
  subst h1
  have h2 : x * N = u * N := by omega
  have hN : 0 < N := by omega
  exact ⟨Nat.eq_of_mul_eq_mul_right hN h2, rfl⟩

lemma wrap2_lt (N : Nat) (hN : 0 < N) (a b : Int) : wrap2 N a b < N * N := by
  have hN' : (0 : Int) < N := by exact_mod_cast hN
  have ha : (a % (N : Int)).toNat < N := by
    have := Int.emod_lt_of_pos a hN'
    omega
  have hb : (b % (N : Int)).toNat < N := by
    have := Int.emod_lt_of_pos b hN'
    omega
  calc (a % (N : Int)).toNat * N + (b % (N : Int)).toNat
      < (a % (N : Int)).toNat * N + N := by omega
    _ = ((a % (N : Int)).toNat + 1) * N := by ring
    _ ≤ N * N := Nat.mul_le_mul_right N (by omega)

lemma wrap2_eq_iff (N : Nat) (hN : 0 < N) (a b : Int) (q : Nat) (hq : q < N * N) :
    wrap2 N a b = q ↔
      (a % (N : Int) = ((q / N : Nat) : Int) ∧ b % (N : Int) = ((q % N : Nat) : Int)) := by
  have hN' : (0 : Int) < N := by exact_mod_cast hN
  have ha0 : 0 ≤ a % (N : Int) := Int.emod_nonneg a (by omega)
  have hb0 : 0 ≤ b % (N : Int) := Int.emod_nonneg b (by omega)
  have haN : a % (N : Int) < N := Int.emod_lt_of_pos a hN'
  have hbN : b % (N : Int) < N := Int.emod_lt_of_pos b hN'
  have hqd : q / N < N := by
    rw [Nat.div_lt_iff_lt_mul hN]
    omega
  have hqm : q % N < N := Nat.mod_lt _ hN
  constructor
  · intro h
    rw [wrap2] at h
    have hdm := Nat.div_add_mod q N
    have hq' : q / N * N + q % N = q := by rw [Nat.mul_comm]; exact hdm
    rw [← hq'] at h
    have hy : (b % (N : Int)).toNat < N := by omega
    obtain ⟨hA, hB⟩ := flatten_inj N _ _ _ _ hy hqm h
    constructor
    · rw [← hA]
      exact (Int.toNat_of_nonneg ha0).symm
    · rw [← hB]
      exact (Int.toNat_of_nonneg hb0).symm
  · intro ⟨h1, h2⟩
    rw [wrap2, h1, h2]
    have e1 : ((q / N : Nat) : Int).toNat = q / N := Int.toNat_natCast _
    have e2 : ((q % N : Nat) : Int).toNat = q % N := Int.toNat_natCast _
    rw [e1, e2, Nat.mul_comm]
    exact Nat.div_add_mod q N

/-- Shifting by offsets of absolute value at most 1 is injective modulo
`N ≥ 3`. -/
lemma shift_emod_inj (N : Nat) (hN : 3 ≤ N) (x d1 d2 : Int)
    (h1 : d1.natAbs ≤ 1) (h2 : d2.natAbs ≤ 1)
    (h : (x + d1) % (N : Int) = (x + d2) % (N : Int)) : d1 = d2 := by
  have hd : ((x + d1) - (x + d2)) % (N : Int) = 0 :=
    Int.emod_eq_emod_iff_emod_sub_eq_zero.mp h
  have hd2 : (d1 - d2) % (N : Int) = 0 := by
    have he : (x + d1) - (x + d2) = d1 - d2 := by ring
    rwa [he] at hd
  rcases Int.dvd_of_emod_eq_zero hd2 with ⟨k, hk⟩
  by_cases hk0 : k = 0
  · subst hk0
    simp at hk
    omega
  · exfalso
    have h1k : 1 ≤ k.natAbs := by omega
    have habs : (d1 - d2).natAbs = (N : Int).natAbs * k.natAbs := by
      rw [hk, Int.natAbs_mul]
    have hNabs : ((N : Int)).natAbs = N := Int.natAbs_ofNat N
    have hge : 3 ≤ (d1 - d2).natAbs := by
      rw [habs, hNabs]
      calc 3 ≤ N := hN
        _ = N * 1 := by ring
        _ ≤ N * k.natAbs := Nat.mul_le_mul_left N h1k
    omega

lemma singleCell_length (n p : Nat) : (singleCell n p).length = n := by
  simp [singleCell]

lemma singleCell_getD (n p : Nat) (hp : p < n) (j : Nat) :
    (singleCell n p).getD j 0 = if j = p then 1 else 0 := by
  by_cases hj : j < n
  · rw [List.getD_eq_getElem _ _ (by simpa [singleCell_length] using hj)]
    simp only [singleCell, List.getElem_set, List.getElem_replicate]
    by_cases h : p = j
    · simp [h]
    · have hne : j ≠ p := fun hc => h hc.symm
      simp [h, hne]
  · rw [List.getD_eq_default _ _ (by simpa [singleCell_length] using Nat.le_of_not_lt hj)]
    have hne : j ≠ p := by omega
    simp [hne]

lemma singleCell_sum : ∀ (n p : Nat), p < n → (singleCell n p).sum = 1 := by
  intro n
  induction n with
  | zero => intro p hp; omega
  | succ m ih =>
    intro p hp
    cases p with
    | zero => simp [singleCell, List.replicate_succ]
    | succ k =>
      have hik := ih k (by omega)
      simp only [singleCell, List.replicate_succ, List.set_cons_succ, List.sum_cons]
      simpa [singleCell] using hik

lemma sum_map_indicator (p : Nat) :
    ∀ l : List Nat, (l.map (fun q => if q = p then 1 else 0)).sum = l.count p
  | [] => by simp
  | q :: l => by
    by_cases hq : q = p <;>
      simp [hq, sum_map_indicator p l, List.count_cons] <;> omega

lemma specSum_singleCell (N i p : Nat) (hp : p < N * N) :
    specNeighborSum N (singleCell (N * N) p) i = (posList N i).count p := by
  rw [specNeighborSum, ← sum_map_indicator p (posList N i), posList, List.map_map]
  congr 1
  apply List.map_congr_left
  intro o _
  exact singleCell_getD (N * N) p hp _

lemma offsets_small : ∀ o ∈ neighborOffsets, o.1.natAbs ≤ 1 ∧ o.2.natAbs ≤ 1 := by decide

lemma offsets_ne_zero : ∀ o ∈ neighborOffsets, ¬(o.1 = 0 ∧ o.2 = 0) := by decide

lemma offsets_nodup : neighborOffsets.Nodup := by decide

lemma wrap2_inj_parts (N : Nat) (hN : 0 < N) (a b a2 b2 : Int)
    (h : wrap2 N a b = wrap2 N a2 b2) :
    a % (N : Int) = a2 % (N : Int) ∧ b % (N : Int) = b2 % (N : Int) := by
  have hN' : (0 : Int) < N := by exact_mod_cast hN
  have hb : (b % (N : Int)).toNat < N := by
    have := Int.emod_lt_of_pos b hN'
    have := Int.emod_nonneg b (by omega : (N : Int) ≠ 0)
    omega
  have hb2 : (b2 % (N : Int)).toNat < N := by
    have := Int.emod_lt_of_pos b2 hN'
    have := Int.emod_nonneg b2 (by omega : (N : Int) ≠ 0)
    omega
  rw [wrap2, wrap2] at h
  obtain ⟨h1, h2⟩ := flatten_inj N _ _ _ _ hb hb2 h
  have ha0 := Int.emod_nonneg a (by omega : (N : Int) ≠ 0)
  have ha2 := Int.emod_nonneg a2 (by omega : (N : Int) ≠ 0)
  have hb0 := Int.emod_nonneg b (by omega : (N : Int) ≠ 0)
  have hb20 := Int.emod_nonneg b2 (by omega : (N : Int) ≠ 0)
  constructor
  · omega
  · omega

/-- For `N ≥ 3`, none of the eight neighbor positions of a cell is the cell
itself. -/
lemma posList_not_self (N i : Nat) (hN : 3 ≤ N) (hi : i < N * N) : i ∉ posList N i := by
  intro hmem
  rw [posList, List.mem_map] at hmem
  obtain ⟨o, ho, heq⟩ := hmem
  obtain ⟨h1, h2⟩ := offsets_small o ho
  have hN0 : 0 < N := by omega
  rw [wrap2_eq_iff N hN0 _ _ i hi] at heq
  obtain ⟨hr, hc⟩ := heq
  have hidiv : i / N < N := by
    rw [Nat.div_lt_iff_lt_mul hN0]
    omega
  have himod : i % N < N := Nat.mod_lt _ hN0
  have hdiv : (i : Int) / (N : Int) = ((i / N : Nat) : Int) := (Int.natCast_div i N).symm
  have hmod : (i : Int) % (N : Int) = ((i % N : Nat) : Int) := (Int.ofNat_emod i N).symm
  have hr0 : (((i / N : Nat) : Int) + 0) % (N : Int) = ((i / N : Nat) : Int) := by
    rw [add_zero]
    exact Int.emod_eq_of_lt (Int.natCast_nonneg _) (by exact_mod_cast hidiv)
  have hc0 : (((i % N : Nat) : Int) + 0) % (N : Int) = ((i % N : Nat) : Int) := by
    rw [add_zero]
    exact Int.emod_eq_of_lt (Int.natCast_nonneg _) (by exact_mod_cast himod)
  rw [hdiv] at hr
  rw [hmod] at hc
  have ho1 : o.1 = 0 := shift_emod_inj N hN _ _ _ h1 (by simp) (hr.trans hr0.symm)
  have ho2 : o.2 = 0 := shift_emod_inj N hN _ _ _ h2 (by simp) (hc.trans hc0.symm)
  exact offsets_ne_zero o ho ⟨ho1, ho2⟩

/-- For `N ≥ 3`, the eight neighbor positions of a cell are pairwise
distinct. -/
lemma posList_nodup (N i : Nat) (hN : 3 ≤ N) : (posList N i).Nodup := by
  rw [posList]
  apply List.Nodup.map_on _ offsets_nodup
  intro o1 ho1 o2 ho2 heq
  obtain ⟨ha1, hb1⟩ := offsets_small o1 ho1
  obtain ⟨ha2, hb2⟩ := offsets_small o2 ho2
  obtain ⟨hr, hc⟩ := wrap2_inj_parts N (by omega) _ _ _ _ heq
  have e1 : o1.1 = o2.1 := shift_emod_inj N hN _ _ _ ha1 ha2 hr
  have e2 : o1.2 = o2.2 := shift_emod_inj N hN _ _ _ hb1 hb2 hc
  exact Prod.ext e1 e2

lemma getD_replicate_zero (n j : Nat) : (List.replicate n (0 : Nat)).getD j 0 = 0 := by
  by_cases hj : j < n
  · rw [List.getD_eq_getElem _ _ (by simpa using hj)]
    simp
  · rw [List.getD_eq_default _ _ (by simpa using Nat.le_of_not_lt hj)]

lemma replicate_ne_singleCell (N p : Nat) (hp : p < N * N) :
    List.replicate (N * N) 0 ≠ singleCell (N * N) p := by
  intro h
  have h1 := singleCell_getD (N * N) p hp p
  rw [← h, getD_replicate_zero, if_pos rfl] at h1
  omega

/-- The single live cell dies and gives birth to no cell: the next
generation of a single-live-cell grid is all dead, for every grid size. -/
lemma singleNextDead (N p : Nat) (hN : 1 ≤ N) (hp : p < N * N) :
    computeNextGeneration N (singleCell (N * N) p) = List.replicate (N * N) 0 := by
  by_cases h3 : 3 ≤ N
  · apply List.ext_getElem
    · simp [length_computeNextGeneration]
    · intro i hi1 hi2
      have hiN : i < N * N := by
        simpa [length_computeNextGeneration] using hi1
      have hgetD := getD_computeNextGeneration N (singleCell (N * N) p) i hiN
      rw [List.getD_eq_getElem _ _ hi1] at hgetD
      rw [hgetD, List.getElem_replicate]
      have hcnt : countAliveNeighbors N (singleCell (N * N) p) i = (posList N i).count p := by
        rw [count_eq_specSum, specSum_singleCell N i p hp]
      by_cases hip : i = p
      · have hcell : (singleCell (N * N) p).getD i 0 = 1 := by
          rw [singleCell_getD (N * N) p hp, if_pos hip]
        have hzero : (posList N i).count p = 0 := by
          rw [List.count_eq_zero]
          rw [hip] at *
          exact posList_not_self N p h3 hp
        rw [if_neg]
        push_neg
        constructor
        · intro _
          rw [hcnt, hzero]
          omega
        · intro hc
          rw [hcell] at hc
          omega
      · have hcell : (singleCell (N * N) p).getD i 0 = 0 := by
          rw [singleCell_getD (N * N) p hp, if_neg hip]
        have hle : (posList N i).count p ≤ 1 :=
          List.nodup_iff_count_le_one.mp (posList_nodup N i h3) p
        rw [if_neg]
        push_neg
        constructor
        · intro hc
          rw [hcell] at hc
          omega
        · intro _
          rw [hcnt]
          omega
  · interval_cases N
    · have : p = 0 := by omega
      subst this
      decide
    · interval_cases p <;> decide

lemma runLoop_succ (l : Nat) (s : SimState) :
    runLoop (l + 1) s =
      if (!s.isStatic && !s.isPeriodic) || s.stableCount < 10 then
        if s.grid.sum = 0 then
          { s with isStatic := true, aliveHistory := s.aliveHistory ++ [0] }
        else runLoop l (runIteration s)
      else s := rfl

/-- The first loop iteration of `run` on a single-live-cell grid, computed
explicitly. -/
lemma runIteration_singleCell (N p : Nat) (hN : 1 ≤ N) (hp : p < N * N) :
    runIteration (initSim N (singleCell (N * N) p)) =
      { gridSize := N
        grid := List.replicate (N * N) 0
        history := [singleCell (N * N) p, singleCell (N * N) p]
        stableCount := 0
        lifespan := 1
        isStatic := false
        isPeriodic := false
        aliveHistory := [1, 1]
        uniqueStates := [List.replicate (N * N) 0, singleCell (N * N) p] } := by
  have hnext := singleNextDead N p hN hp
  have hsum := singleCell_sum (N * N) p hp
  have hne := replicate_ne_singleCell N p hp
  simp [runIteration, simStep, initSim, hnext, hsum, hne]

end GoL

namespace GA

open GoL

lemma lookup_append_self (cache : Cache) (cfg : Config) (r : EvalRecord)
    (h : cache.lookup cfg = none) : (cache ++ [(cfg, r)]).lookup cfg = some r := by
  induction cache with
  | nil => simp [List.lookup]
  | cons e t ih =>
    obtain ⟨k, v⟩ := e
    rw [List.lookup] at h
    rw [List.cons_append, List.lookup]
    cases hbeq : (cfg == k)
    · rw [hbeq] at h
      exact ih h
    · rw [hbeq] at h
      exact Option.noConfusion h

lemma lookup_append_some (cache cache2 : Cache) (cfg : Config) (r : EvalRecord)
    (h : cache.lookup cfg = some r) : (cache ++ cache2).lookup cfg = some r := by
  induction cache with
  | nil => simp [List.lookup] at h
  | cons e t ih =>
    obtain ⟨k, v⟩ := e
    rw [List.lookup] at h
    rw [List.cons_append, List.lookup]
    cases hbeq : (cfg == k)
    · rw [hbeq] at h
      exact ih h
    · rw [hbeq] at h
      exact h

lemma lookup_some_key (cache : Cache) (cfg : Config) (r : EvalRecord)
    (h : cache.lookup cfg = some r) : ∃ e ∈ cache, e.1 = cfg := by
  induction cache with
  | nil => simp [List.lookup] at h
  | cons e t ih =>
    obtain ⟨k, v⟩ := e
    rw [List.lookup] at h
    cases hbeq : (cfg == k)
    · rw [hbeq] at h
      obtain ⟨e2, he2, hfst⟩ := ih h
      exact ⟨e2, by simp [he2], hfst⟩
    · refine ⟨(k, v), by simp, ?_⟩
      exact (eq_of_beq hbeq).symm

/-- A successful `evaluate` leaves its configuration present in the
returned cache, mapped to the returned record. -/
lemma evaluate_ok_lookup (p : GAParams) (cache : Cache) (cfg : Config)
    (r : EvalRecord) (cache2 : Cache) (b : Bool)
    (h : evaluate p cache cfg = (.ok r, cache2, b)) :
    cache2.lookup cfg = some r := by
  cases hl : cache.lookup cfg with
  | some r0 =>
    simp [evaluate, hl] at h
    obtain ⟨h1, h2, _⟩ := h
    rw [← h2, hl, h1]
  | none =>
    by_cases hlen : cfg.length ≠ p.gridSize * p.gridSize
    · simp [evaluate, hl, hlen] at h
    · simp [evaluate, hl, hlen] at h
      obtain ⟨h1, h2, _⟩ := h
      rw [← h2, ← h1]
      exact lookup_append_self cache cfg _ hl

/-- `evaluate` never removes or changes existing cache entries. -/
lemma evaluate_preserves_lookup (p : GAParams) (cache : Cache) (cfg0 : Config)
    (res : Except String EvalRecord) (cache2 : Cache) (b : Bool)
    (h : evaluate p cache cfg0 = (res, cache2, b))
    (cfg : Config) (r : EvalRecord) (hl : cache.lookup cfg = some r) :
    cache2.lookup cfg = some r := by
  cases hl0 : cache.lookup cfg0 with
  | some r0 =>
    simp [evaluate, hl0] at h
    rw [← h.2.1]
    exact hl
  | none =>
    by_cases hlen : cfg0.length ≠ p.gridSize * p.gridSize
    · simp [evaluate, hl0, hlen] at h
      rw [← h.2.1]
      exact hl
    · simp [evaluate, hl0, hlen] at h
      rw [← h.2.1]
      exact lookup_append_some cache _ cfg r hl

/-- A call that ran a simulation was a cache miss. -/
lemma evaluate_sim_miss (p : GAParams) (cache : Cache) (cfg : Config)
    (res : Except String EvalRecord) (cache2 : Cache)
    (h : evaluate p cache cfg = (res, cache2, true)) :
    cache.lookup cfg = none := by
  cases hl : cache.lookup cfg with
  | some r0 => simp [evaluate, hl] at h
  | none => rfl

/-- Once a configuration is cached, no later call in a run simulates it. -/
lemma evalCalls_no_sim (p : GAParams) :
    ∀ calls (cache : Cache) (cfg : Config) (r : EvalRecord),
      cache.lookup cfg = some r →
      ((evalCalls p cache calls).2.count cfg) = 0 := by
  intro calls
  induction calls with
  | nil => intro cache cfg r _; simp [evalCalls]
  | cons c cs ih =>
    intro cache cfg r hl
    rw [evalCalls]
    cases he : evaluate p cache c with
    | mk res rest =>
      obtain ⟨cache2, b⟩ := rest
      cases res with
      | error e => simp
      | ok r2 =>
        have hl2 : cache2.lookup cfg = some r :=
          evaluate_preserves_lookup p cache c _ cache2 b he cfg r hl
        have hrest := ih cache2 cfg r hl2
        cases b with
        | false => simpa using hrest
        | true =>
          have hmiss := evaluate_sim_miss p cache c _ cache2 he
          have hne : c ≠ cfg := by
            intro hcc
            rw [hcc, hl] at hmiss
            exact Option.noConfusion hmiss
          simp [List.count_cons, hrest, hne]

/-- Over any run, each configuration is simulated at most once. -/
lemma evalCalls_count_le_one (p : GAParams) :
    ∀ calls (cache : Cache) (cfg : Config),
      ((evalCalls p cache calls).2.count cfg) ≤ 1 := by
  intro calls
  induction calls with
  | nil => intro cache cfg; simp [evalCalls]
  | cons c cs ih =>
    intro cache cfg
    rw [evalCalls]
    cases he : evaluate p cache c with
    | mk res rest =>
      obtain ⟨cache2, b⟩ := rest
      cases res with
      | error e => simp
      | ok r2 =>
        cases b with
        | false => simpa using ih cache2 cfg
        | true =>
          have hlook : cache2.lookup c = some r2 :=
            evaluate_ok_lookup p cache c r2 cache2 true he
          by_cases hc : c = cfg
          · subst hc
            have hzero := evalCalls_no_sim p cs cache2 c r2 hlook
            simp [List.count_cons, hzero]
          · simp [List.count_cons, hc]
            simpa using ih cache2 cfg

/-- The 1×1 all-dead configuration terminates immediately. -/
lemma simRun_zero1 :
    simRun (initSim 1 [0]) =
      { gridSize := 1
        grid := [0]
        history := []
        stableCount := 0
        lifespan := 0
        isStatic := true
        isPeriodic := false
        aliveHistory := [0, 0]
        uniqueStates := [[0]] } := by
  have h150 : (150000 : Nat) = 149999 + 1 := by norm_num
  rw [simRun, h150, runLoop_succ]
  simp [initSim]

lemma mdwd_zero : maxDifferenceWithDistance [0, 0] = 0 := by
  have h : mdwdGo [0, 0] 1 0 none 0 1 = (some 0, 1) := by decide
  simp [maxDifferenceWithDistance, h]

/-- The full evaluation record of the 1×1 all-dead configuration. -/
lemma freshEval_zero1 :
    freshEval testParams [0] =
      { fitnessScore := 0
        history := []
        lifespan := 0
        aliveGrowth := 0
        maxAliveCellsCount := 0
        isStatic := true
        isPeriodic := false
        stableness := 0
        initialLivingCellsCount := 0 } := by
  have hg : testParams.gridSize = 1 := rfl
  rw [freshEval, hg, simRun_zero1]
  simp [calcFitness, mdwd_zero]

lemma genListGo_length (f : Nat → Except String Config) :
    ∀ k t cs, genListGo f t k = .ok cs → cs.length = k := by
  intro k
  induction k with
  | zero =>
    intro t cs h
    simp [genListGo] at h
    simp [← h]
  | succ m ih =>
    intro t cs h
    rw [genListGo] at h
    cases hf : f t with
    | error e => rw [hf] at h; exact Except.noConfusion h
    | ok c =>
      rw [hf] at h
      cases hg : genListGo f (t + 1) m with
      | error e => rw [hg] at h; exact Except.noConfusion h
      | ok cs2 =>
        rw [hg] at h
        obtain rfl : c :: cs2 = cs := by
          simpa using h
        simp [ih (t + 1) cs2 hg]

lemma enrichVarietyList_length (N a b c : Nat) (o : EnrichOracle) (gen : List Config)
    (h : enrichVarietyList N a b c o = .ok gen) : gen.length = a + b + c := by
  rw [enrichVarietyList] at h
  cases h1 : genListGo (fun t => genClusterConfig N t o) 0 a with
  | error e => rw [h1] at h; exact Except.noConfusion h
  | ok cl =>
    rw [h1] at h
    cases h2 : genListGo (fun t => genScatteredConfig N t o) 0 b with
    | error e => rw [h2] at h; exact Except.noConfusion h
    | ok sc =>
      rw [h2] at h
      cases h3 : genListGo (fun t => genBasicPatternConfig N t o) 0 c with
      | error e => rw [h3] at h; exact Except.noConfusion h
      | ok bp =>
        rw [h3] at h
        obtain rfl : cl ++ sc ++ bp = gen := by simpa using h
        simp [genListGo_length _ a 0 cl h1, genListGo_length _ b 0 sc h2,
          genListGo_length _ c 0 bp h3]
        omega

lemma mem_insertDesc (x y : Config × ℚ) :
    ∀ l, y ∈ insertDesc x l → y = x ∨ y ∈ l
  | [] => by simp [insertDesc]
  | z :: zs => by
    rw [insertDesc]
    split_ifs
    · intro h
      rcases List.mem_cons.mp h with h | h
      · exact Or.inl h
      · exact Or.inr h
    · intro h
      rcases List.mem_cons.mp h with h | h
      · exact Or.inr (by simp [h])
      · rcases mem_insertDesc x y zs h with h | h
        · exact Or.inl h
        · exact Or.inr (by simp [h])

lemma mem_pySortDesc (y : Config × ℚ) :
    ∀ l, y ∈ pySortDesc l → y ∈ l := by
  have haux : ∀ (l : List (Config × ℚ)) (acc : List (Config × ℚ)),
      y ∈ l.foldr insertDesc acc → y ∈ l ∨ y ∈ acc := by
    intro l
    induction l with
    | nil => intro acc h; exact Or.inr h
    | cons z zs ih =>
      intro acc h
      rw [List.foldr_cons] at h
      rcases mem_insertDesc z y _ h with h | h
      · exact Or.inl (by simp [h])
      · rcases ih acc h with h | h
        · exact Or.inl (by simp [h])
        · exact Or.inr h
  intro l h
  rcases haux l [] h with h | h
  · exact h
  · simp at h

lemma getD_mod_mem (l : List Config) (i : Nat) (h : l ≠ []) :
    l.getD (i % l.length) [] ∈ l := by
  have hlen : 0 < l.length := List.length_pos.mpr h
  have hm : i % l.length < l.length := Nat.mod_lt _ hlen
  rw [List.getD_eq_getElem _ _ hm]
  exact List.getElem_mem hm

lemma evalScores_fst (p : GAParams) :
    ∀ (l : List Config) (cache : Cache) (scored : List (Config × ℚ)) (cache2 : Cache),
      evalScores p cache l = (.ok scored, cache2) → scored.map Prod.fst = l := by
  intro l
  induction l with
  | nil =>
    intro cache scored cache2 h
    simp [evalScores] at h
    simp [← h.1]
  | cons c cs ih =>
    intro cache scored cache2 h
    rw [evalScores] at h
    cases he : evaluate p cache c with
    | mk res rest =>
      obtain ⟨cacheB, b⟩ := rest
      rw [he] at h
      cases res with
      | error e => simp at h
      | ok r =>
        simp only [] at h
        cases hs : evalScores p cacheB cs with
        | mk res2 cacheC =>
          rw [hs] at h
          cases res2 with
          | error e => simp at h
          | ok l2 =>
            simp at h
            rw [← h.1]
            simp [ih cacheB l2 cacheC hs]

lemma pyMaxBySnd_mem : ∀ (l : List (Config × ℚ)) (b : Config × ℚ),
    pyMaxBySnd l = some b → b ∈ l
  | [], b => by simp [pyMaxBySnd]
  | x :: xs, b => by
    intro h
    rw [pyMaxBySnd] at h
    cases hm : pyMaxBySnd xs with
    | none =>
      rw [hm] at h
      simp only [] at h
      simp at h
      simp [← h]
    | some b2 =>
      rw [hm] at h
      simp only [] at h
      split_ifs at h with hgt
      · have hmem := pyMaxBySnd_mem xs b2 hm
        simp at h
        simp [← h, hmem]
      · simp at h
        simp [← h]

lemma pair_ok_inj {α : Type} (x cfg : α) (c1 c2 : Cache)
    (h : ((Except.ok x : Except String α), c1) = (.ok cfg, c2)) : x = cfg ∧ c1 = c2 := by
  injection h with h1 h2
  exact ⟨Except.ok.inj h1, h2⟩

lemma tournamentSelection_mem (p : GAParams) (cache : Cache) (pop : List Config)
    (sampleIdx : Nat → Nat) (cfg : Config) (cache2 : Cache)
    (h : tournamentSelection p cache pop sampleIdx = (.ok cfg, cache2)) : cfg ∈ pop := by
  rw [tournamentSelection] at h
  split_ifs at h with hlt
  · simp at h
  · cases hs : evalScores p cache
        ((List.range 3).map (fun k => pop.getD (sampleIdx k % pop.length) [])) with
    | mk res cacheB =>
      rw [hs] at h
      cases res with
      | error e => simp at h
      | ok scored =>
        simp only [] at h
        cases hmax : pyMaxBySnd scored with
        | none => rw [hmax] at h; simp at h
        | some best =>
          rw [hmax] at h
          simp only [] at h
          simp at h
          have hb := pyMaxBySnd_mem scored best hmax
          have hfst := evalScores_fst p _ cache scored cacheB hs
          have hmm : best.1 ∈ scored.map Prod.fst := List.mem_map_of_mem Prod.fst hb
          rw [hfst] at hmm
          rw [List.mem_map] at hmm
          obtain ⟨k, _, hk⟩ := hmm
          have hne : pop ≠ [] := by
            intro hnil
            rw [hnil] at hlt
            simp at hlt
          rw [← h.1, ← hk]
          exact getD_mod_mem pop _ hne

lemma rouletteWheelSelection_mem (p : GAParams) (cache : Cache) (pop : List Config)
    (choiceIdx : Nat) (cfg : Config) (cache2 : Cache)
    (h : rouletteWheelSelection p cache pop choiceIdx = (.ok cfg, cache2)) : cfg ∈ pop := by
  rw [rouletteWheelSelection] at h
  cases hs : evalScores p cache pop with
  | mk res cacheB =>
    rw [hs] at h
    cases res with
    | error e => simp at h
    | ok scored =>
      simp only [] at h
      split_ifs at h with hsum hemp
      · simp at h
      · simp at h
      · obtain ⟨hx, hc⟩ := pair_ok_inj _ _ _ _ h
        have hne : pop ≠ [] := by
          intro hnil
          rw [hnil] at hemp
          simp at hemp
        rw [← hx]
        exact getD_mod_mem pop _ hne

lemma rankBasedSelection_mem (p : GAParams) (cache : Cache) (pop : List Config)
    (choiceIdx : Nat) (cfg : Config) (cache2 : Cache)
    (h : rankBasedSelection p cache pop choiceIdx = (.ok cfg, cache2)) : cfg ∈ pop := by
  rw [rankBasedSelection] at h
  cases hs : evalScores p cache pop with
  | mk res cacheB =>
    rw [hs] at h
    cases res with
    | error e => simp at h
    | ok scored =>
      simp only [] at h
      split_ifs at h with hemp
      · simp at h
      · obtain ⟨hx, hc⟩ := pair_ok_inj _ _ _ _ h
        have hne : pySortDesc scored ≠ [] := by
          intro hnil
          rw [hnil] at hemp
          simp at hemp
        have hlen : ((pySortDesc scored).map Prod.fst).length = (pySortDesc scored).length :=
          List.length_map _ _
        have hne2 : (pySortDesc scored).map Prod.fst ≠ [] := by
          intro hnil
          rw [hnil] at hlen
          exact hne (List.length_eq_zero.mp hlen.symm)
        have hmem : ((pySortDesc scored).map Prod.fst).getD
            (choiceIdx % (pySortDesc scored).length) [] ∈ (pySortDesc scored).map Prod.fst := by
          rw [← hlen]
          exact getD_mod_mem _ _ hne2
        rw [← hx]
        rw [List.mem_map] at hmem
        obtain ⟨pair, hpair, hp1⟩ := hmem
        have hps := mem_pySortDesc pair scored hpair
        have hin : pair.1 ∈ scored.map Prod.fst := List.mem_map_of_mem Prod.fst hps
        rw [evalScores_fst p pop cache scored cacheB hs] at hin
        rw [← hp1]
        exact hin

lemma runSelection_mem (p : GAParams) (cache : Cache) (pop : List Config)
    (method : Nat) (o : SelOracle) (cfg : Config) (cache2 : Cache)
    (h : runSelection p cache pop method o = (.ok cfg, cache2)) : cfg ∈ pop := by
  rw [runSelection] at h
  split_ifs at h
  · exact tournamentSelection_mem p cache pop o.sampleIdx cfg cache2 h
  · exact rouletteWheelSelection_mem p cache pop o.choiceIdx cfg cache2 h
  · exact rankBasedSelection_mem p cache pop o.choiceIdx cfg cache2 h

lemma selectParents_mem (p : GAParams) (cache : Cache) (pop : List Config)
    (method : Nat) (o1 o2 : SelOracle) (par1 par2 : Config) (cache2 : Cache)
    (h : selectParents p cache pop method o1 o2 = (.ok (par1, par2), cache2)) :
    par1 ∈ pop ∧ par2 ∈ pop := by
  rw [selectParents] at h
  cases h1 : runSelection p cache pop method o1 with
  | mk res1 cacheB =>
    rw [h1] at h
    cases res1 with
    | error e => simp at h
    | ok q1 =>
      simp only [] at h
      cases h2 : runSelection p cacheB pop method o2 with
      | mk res2 cacheC =>
        rw [h2] at h
        cases res2 with
        | error e => simp at h
        | ok q2 =>
          simp at h
          obtain ⟨⟨hq1, hq2⟩, _⟩ := h
          constructor
          · rw [← hq1]
            exact runSelection_mem p cache pop method o1 q1 cacheB h1
          · rw [← hq2]
            exact runSelection_mem p cacheB pop method o2 q2 cacheC h2

lemma sum_map_const_on {α : Type} (l : List α) (g : α → Nat) (c : Nat)
    (h : ∀ x ∈ l, g x = c) : (l.map g).sum = l.length * c := by
  induction l with
  | nil => simp
  | cons x xs ih =>
    rw [List.map_cons, List.sum_cons, h x (by simp), ih (fun y hy => h y (by simp [hy]))]
    simp [List.length_cons]
    ring

lemma rowBlock_length (N : Nat) (par : Config) (i : Nat)
    (hpar : par.length = N * N) (hi : i < N) : (rowBlock N par i).length = N := by
  have hmul : i * N + N ≤ N * N := by
    have h1 : (i + 1) * N ≤ N * N := Nat.mul_le_mul_right N (Nat.succ_le_of_lt hi)
    calc i * N + N = (i + 1) * N := by ring
      _ ≤ N * N := h1
  simp [rowBlock, hpar]
  omega

lemma flatten_blocks_length (N : Nat) (f : Nat → Config)
    (h : ∀ i ∈ List.range N, (f i).length = N) :
    (((List.range N).map f).flatten).length = N * N := by
  rw [List.length_flatten, List.map_map]
  have hconst : ∀ i ∈ List.range N, (List.length ∘ f) i = N := by
    intro i hi
    simp [h i hi]
  rw [sum_map_const_on _ _ N hconst, List.length_range]

lemma padToLength_self (total : Nat) (l : Config) (h : l.length = total) :
    padToLength total l = l := by
  simp [padToLength, h]

lemma crossoverBasic_length (N : Nat) (par1 par2 : Config) :
    (crossoverBasic N par1 par2).length = N * N := by
  simp [crossoverBasic]

lemma crossoverSimple_length (N : Nat) (par1 par2 child : Config)
    (h : crossoverSimple N par1 par2 = .ok child) : child.length = N * N := by
  rw [crossoverSimple] at h
  split_ifs at h with hbad
  push_neg at hbad
  obtain ⟨h1, h2⟩ := hbad
  have hblocks : (((List.range N).map (fun i =>
      if i % 2 = 0 then rowBlock N par2 i else rowBlock N par1 i)).flatten).length = N * N := by
    apply flatten_blocks_length
    intro i hi
    have hiN : i < N := List.mem_range.mp hi
    by_cases hp : i % 2 = 0
    · simp [hp, rowBlock_length N par2 i h2 hiN]
    · simp [hp, rowBlock_length N par1 i h1 hiN]
  have hchild : padToLength (N * N) _ = child := Except.ok.inj h
  rw [← hchild, padToLength_self _ _ hblocks]
  exact hblocks

lemma crossoverComplex_length (N : Nat) (par1 par2 child : Config)
    (sel1 sel2 : List Nat) (coin : Nat → Bool)
    (h : crossoverComplex N par1 par2 sel1 sel2 coin = .ok child) :
    child.length = N * N := by
  rw [crossoverComplex] at h
  split_ifs at h with hbad
  push_neg at hbad
  obtain ⟨h1, h2⟩ := hbad
  have hblocks : (((List.range N).map (fun i =>
      if i ∈ sel1 then rowBlock N par1 i
      else if i ∈ sel2 then rowBlock N par2 i
      else if coin i then rowBlock N par1 i else rowBlock N par2 i)).flatten).length = N * N := by
    apply flatten_blocks_length
    intro i hi
    have hiN : i < N := List.mem_range.mp hi
    have e1 := rowBlock_length N par1 i h1 hiN
    have e2 := rowBlock_length N par2 i h2 hiN
    split_ifs <;> assumption
  have hchild : padToLength (N * N) _ = child := Except.ok.inj h
  rw [← hchild, padToLength_self _ _ hblocks]
  exact hblocks

lemma crossover_length (N : Nat) (par1 par2 child : Config) (method : Nat)
    (sel1 sel2 : List Nat) (coin : Nat → Bool)
    (hp1 : par1.length = N * N) (hp2 : par2.length = N * N)
    (h : crossover N par1 par2 method sel1 sel2 coin = .ok child) :
    child.length = N * N := by
  rw [crossover] at h
  split_ifs at h
  · rw [← Except.ok.inj h]
    exact crossoverBasic_length N par1 par2
  · exact crossoverSimple_length N par1 par2 child h
  · exact crossoverComplex_length N par1 par2 child sel1 sel2 coin h

lemma foldl_length_invariant {α : Type} (step : Config → α → Config)
    (h : ∀ acc x, (step acc x).length = acc.length) :
    ∀ (l : List α) (acc : Config), (l.foldl step acc).length = acc.length
  | [], acc => rfl
  | x :: l, acc => by
    rw [List.foldl_cons, foldl_length_invariant step h l (step acc x), h]

lemma mutateBasic_length (flip : Nat → Bool) (cfg : Config) :
    (mutateBasic flip cfg).length = cfg.length := by
  simp [mutateBasic]

lemma mutateHarsh_length (sizeDraw startDraw : Nat) (bits : Nat → Nat) (cfg : Config) :
    (mutateHarsh sizeDraw startDraw bits cfg).length = cfg.length := by
  rw [mutateHarsh]
  split_ifs
  · rfl
  · exact foldl_length_invariant _ (fun acc x => List.length_set acc _ _) _ cfg

lemma mutateClusters_length (N : Nat) (doFlip : Nat → Bool) (centers : Nat → Nat × Nat)
    (cfg : Config) : (mutateClusters N doFlip centers cfg).length = cfg.length := by
  rw [mutateClusters]
  apply foldl_length_invariant
  intro acc k
  split_ifs
  · exact foldl_length_invariant _ (fun acc2 o => List.length_set acc2 _ _) _ acc
  · rfl

lemma mutate_length (N : Nat) (method : Nat) (o : MutOracle) (cfg : Config) :
    (mutate N method o cfg).length = cfg.length := by
  rw [mutate]
  split_ifs
  · exact mutateBasic_length o.flip cfg
  · exact mutateClusters_length N o.doFlip o.centers cfg
  · exact mutateHarsh_length o.sizeDraw o.startDraw o.bits cfg

lemma genClusterConfig_length (N t : Nat) (o : EnrichOracle) (c : Config)
    (h : genClusterConfig N t o = .ok c) : c.length = N * N := by
  rw [genClusterConfig] at h
  cases h1 : pyRandint 1 (N / 3) (o.clNum t) with
  | error e => rw [h1] at h; exact Except.noConfusion h
  | ok numClusters =>
    rw [h1] at h
    simp only [] at h
    cases h2 : pyRandint (min 2 N) N (o.clSize t) with
    | error e => rw [h2] at h; exact Except.noConfusion h
    | ok clusterSize =>
      rw [h2] at h
      simp only [] at h
      rw [← Except.ok.inj h]
      rw [foldl_length_invariant _ ?hstep (List.range numClusters) _]
      · simp
      · intro acc x
        exact foldl_length_invariant _ (fun acc2 k => List.length_set acc2 _ _) _ acc

lemma genScatteredConfig_length (N t : Nat) (o : EnrichOracle) (c : Config)
    (h : genScatteredConfig N t o = .ok c) : c.length = N * N := by
  rw [genScatteredConfig] at h
  cases h1 : pyRandint 1 (N * N / 3 / 4 * 2) (o.scCount t) with
  | error e => rw [h1] at h; exact Except.noConfusion h
  | ok scatteredCells =>
    rw [h1] at h
    simp only [] at h
    rw [← Except.ok.inj h]
    rw [foldl_length_invariant _ (fun acc k => List.length_set acc _ _) _ _]
    simp

lemma genBasicPatternConfig_length (N t : Nat) (o : EnrichOracle) (c : Config)
    (h : genBasicPatternConfig N t o = .ok c) : c.length = N * N := by
  rw [genBasicPatternConfig] at h
  cases h1 : pyRandint 1 (N * N / 3 / 4 * 2) (o.bpCount t) with
  | error e => rw [h1] at h; exact Except.noConfusion h
  | ok patternCells =>
    rw [h1] at h
    simp only [] at h
    cases h2 : pyRandint 0 (N - 3) (o.bpStart t).1 with
    | error e => rw [h2] at h; exact Except.noConfusion h
    | ok startRow =>
      rw [h2] at h
      simp only [] at h
      cases h3 : pyRandint 0 (N - 3) (o.bpStart t).2 with
      | error e => rw [h3] at h; exact Except.noConfusion h
      | ok startCol =>
        rw [h3] at h
        simp only [] at h
        have hbase : ∀ init : Config, ((List.range N).foldl (fun acc i =>
            (List.range N).foldl (fun acc2 j =>
              if o.bpFlip t i j then
                acc2.set (((startRow + i) % N) * N + ((startCol + j) % N)) 1
              else acc2) acc) init).length = init.length := by
          intro init
          apply foldl_length_invariant
          intro acc x
          apply foldl_length_invariant
          intro acc2 j
          split_ifs
          · exact List.length_set acc2 _ _
          · rfl
        split_ifs at h
        · rw [← Except.ok.inj h]
          rw [foldl_length_invariant _ (fun acc k => List.length_set acc _ _) _ _]
          rw [hbase]
          simp
        · rw [← Except.ok.inj h]
          rw [hbase]
          simp

lemma genListGo_mem_length (f : Nat → Except String Config) (n : Nat)
    (hf : ∀ t c, f t = .ok c → c.length = n) :
    ∀ k t cs, genListGo f t k = .ok cs → ∀ c ∈ cs, c.length = n := by
  intro k
  induction k with
  | zero =>
    intro t cs h c hc
    simp [genListGo] at h
    subst h
    simp at hc
  | succ m ih =>
    intro t cs h c hc
    rw [genListGo] at h
    cases hf1 : f t with
    | error e => rw [hf1] at h; exact Except.noConfusion h
    | ok c1 =>
      rw [hf1] at h
      simp only [] at h
      cases hg : genListGo f (t + 1) m with
      | error e => rw [hg] at h; exact Except.noConfusion h
      | ok cs2 =>
        rw [hg] at h
        simp only [] at h
        rw [← Except.ok.inj h] at hc
        rcases List.mem_cons.mp hc with hc | hc
        · rw [hc]
          exact hf t c1 hf1
        · exact ih (t + 1) cs2 hg c hc

lemma enrichVarietyList_mem_length (N a b c : Nat) (o : EnrichOracle) (gen : List Config)
    (h : enrichVarietyList N a b c o = .ok gen) : ∀ cfg ∈ gen, cfg.length = N * N := by
  rw [enrichVarietyList] at h
  cases h1 : genListGo (fun t => genClusterConfig N t o) 0 a with
  | error e => rw [h1] at h; exact Except.noConfusion h
  | ok cl =>
    rw [h1] at h
    simp only [] at h
    cases h2 : genListGo (fun t => genScatteredConfig N t o) 0 b with
    | error e => rw [h2] at h; exact Except.noConfusion h
    | ok sc =>
      rw [h2] at h
      simp only [] at h
      cases h3 : genListGo (fun t => genBasicPatternConfig N t o) 0 c with
      | error e => rw [h3] at h; exact Except.noConfusion h
      | ok bp =>
        rw [h3] at h
        simp only [] at h
        intro cfg hcfg
        rw [← Except.ok.inj h] at hcfg
        rcases List.mem_append.mp hcfg with hm | hm
        · rcases List.mem_append.mp hm with hm | hm
          · exact genListGo_mem_length _ _ (fun t cc hh => genClusterConfig_length N t o cc hh)
              a 0 cl h1 cfg hm
          · exact genListGo_mem_length _ _ (fun t cc hh => genScatteredConfig_length N t o cc hh)
              b 0 sc h2 cfg hm
        · exact genListGo_mem_length _ _ (fun t cc hh => genBasicPatternConfig_length N t o cc hh)
            c 0 bp h3 cfg hm

lemma mem_setAdd (s : List Config) (c x : Config) (h : x ∈ setAdd s c) :
    x ∈ s ∨ x = c := by
  rw [setAdd] at h
  split_ifs at h
  · exact Or.inl h
  · rcases List.mem_append.mp h with h | h
    · exact Or.inl h
    · exact Or.inr (by simpa using h)

lemma mem_setUnion : ∀ (l s : List Config) (x : Config),
    x ∈ setUnion s l → x ∈ s ∨ x ∈ l
  | [], s, x => fun h => Or.inl h
  | c :: l, s, x => by
    intro h
    rw [setUnion, List.foldl_cons] at h
    rcases mem_setUnion l (setAdd s c) x h with h2 | h2
    · rcases mem_setAdd s c x h2 with h3 | h3
      · exact Or.inl h3
      · exact Or.inr (by simp [h3])
    · exact Or.inr (by simp [h2])

lemma mem_setDiff (s t : List Config) (x : Config) (h : x ∈ setDiff s t) : x ∈ s :=
  (List.mem_filter.mp h).1

/-- Every child produced by the generation loop has the full grid length,
and surviving accumulator members keep theirs. -/
lemma childrenLoop_lengths (p : GAParams) (pop : List Config) (io : Nat → IterOracle)
    (hpop : ∀ c ∈ pop, c.length = p.gridSize * p.gridSize) :
    ∀ (k : Nat) (cache : Cache) (acc : List Config) (result : List Config) (cache2 : Cache),
      (∀ c ∈ acc, c.length = p.gridSize * p.gridSize) →
      childrenLoop p pop io cache acc k = (.ok result, cache2) →
      ∀ c ∈ result, c.length = p.gridSize * p.gridSize := by
  intro k
  induction k with
  | zero =>
    intro cache acc result cache2 hacc h
    rw [childrenLoop] at h
    obtain ⟨hr, _⟩ := pair_ok_inj _ _ _ _ h
    rw [← hr]
    exact hacc
  | succ m ih =>
    intro cache acc result cache2 hacc h
    rw [childrenLoop] at h
    cases hsel : selectParents p cache pop (io m).method (io m).sel1 (io m).sel2 with
    | mk res1 cacheB =>
      rw [hsel] at h
      cases res1 with
      | error e => simp at h
      | ok parents =>
        obtain ⟨par1, par2⟩ := parents
        simp only [] at h
        obtain ⟨hm1, hm2⟩ := selectParents_mem p cache pop (io m).method (io m).sel1
          (io m).sel2 par1 par2 cacheB hsel
        cases hcr : crossover p.gridSize par1 par2 (io m).crossMethod (io m).crossSel1
            (io m).crossSel2 (io m).crossCoin with
        | error e => rw [hcr] at h; simp at h
        | ok child0 =>
          rw [hcr] at h
          simp only [] at h
          have hchild0 : child0.length = p.gridSize * p.gridSize :=
            crossover_length p.gridSize par1 par2 child0 (io m).crossMethod
              (io m).crossSel1 (io m).crossSel2 (io m).crossCoin
              (hpop par1 hm1) (hpop par2 hm2) hcr
          have hchild : (if (io m).doMutate then
              mutate p.gridSize (io m).mutMethod (io m).mutOracle child0
            else child0).length = p.gridSize * p.gridSize := by
            split_ifs
            · rw [mutate_length]
              exact hchild0
            · exact hchild0
          apply ih cacheB _ result cache2 _ h
          intro c hc
          rcases mem_setAdd acc _ c hc with hc2 | hc2
          · exact hacc c hc2
          · rw [hc2]
            exact hchild

/-- `rankAndTrim` returns at most `population_size` configurations, all
drawn from the combined candidate list. -/
lemma rankAndTrim_spec (p : GAParams) (cache : Cache) (combined : List Config)
    (result : List Config) (cache2 : Cache)
    (h : rankAndTrim p cache combined = (.ok result, cache2)) :
    result.length ≤ p.populationSize ∧ ∀ c ∈ result, c ∈ combined := by
  rw [rankAndTrim] at h
  cases hs : evalScores p cache combined with
  | mk res cacheB =>
    rw [hs] at h
    cases res with
    | error e => simp at h
    | ok scored =>
      obtain ⟨hr, _⟩ := pair_ok_inj _ _ _ _ h
      constructor
      · rw [← hr]
        calc (((pySortDesc scored).take p.populationSize).map Prod.fst).dedup.length
            ≤ (((pySortDesc scored).take p.populationSize).map Prod.fst).length :=
              (List.dedup_sublist _).length_le
          _ = ((pySortDesc scored).take p.populationSize).length := List.length_map _ _
          _ ≤ p.populationSize := by
              rw [List.length_take]
              omega
      · intro c hc
        rw [← hr] at hc
        rw [List.mem_dedup, List.mem_map] at hc
        obtain ⟨pair, hpair, hp1⟩ := hc
        have hsorted := List.mem_of_mem_take hpair
        have hsc := mem_pySortDesc pair scored hsorted
        have hin : pair.1 ∈ scored.map Prod.fst := List.mem_map_of_mem Prod.fst hsc
        rw [evalScores_fst p combined cache scored cacheB hs] at hin
        rw [← hp1]
        exact hin

lemma mdwdGo_step (lst : List Int) (j minIndex : Nat) (mx : Int) (dis n : Nat) :
    mdwdGo lst j minIndex (some mx) dis (n + 1) =
      mdwdGo lst (j + 1)
        (if lst.getD j 0 < lst.getD minIndex 0 then j else minIndex)
        (if mx < (lst.getD j 0 - lst.getD minIndex 0) * ((j : Int) - (minIndex : Int))
         then some ((lst.getD j 0 - lst.getD minIndex 0) * ((j : Int) - (minIndex : Int)))
         else some mx)
        (if mx < (lst.getD j 0 - lst.getD minIndex 0) * ((j : Int) - (minIndex : Int))
         then j - minIndex else dis) n := by
  rw [mdwdGo]
  by_cases h : mx < (lst.getD j 0 - lst.getD minIndex 0) * ((j : Int) - (minIndex : Int)) <;>
    simp [h]

lemma mdwdGo_first (lst : List Int) (n : Nat) :
    mdwdGo lst 1 0 none 0 (n + 1) =
      mdwdGo lst 2 (runningMinIdx lst 2) (some (maxAfter lst 1)) (disAfter lst 1) n := rfl

lemma mdwdGo_loop (lst : List Int) : ∀ (k m : Nat),
    mdwdGo lst (m + 2) (runningMinIdx lst (m + 2)) (some (maxAfter lst (m + 1)))
      (disAfter lst (m + 1)) k =
      (some (maxAfter lst (m + 1 + k)), disAfter lst (m + 1 + k)) := by
  intro k
  induction k with
  | zero =>
    intro m
    rw [mdwdGo]
  | succ n ih =>
    intro m
    rw [mdwdGo_step]
    have hdiff : (lst.getD (m + 2) 0 - lst.getD (runningMinIdx lst (m + 2)) 0) *
        (((m + 2 : Nat) : Int) - ((runningMinIdx lst (m + 2) : Nat) : Int)) =
        growthCand lst (m + 2) := rfl
    rw [hdiff]
    have e1 : (if lst.getD (m + 2) 0 < lst.getD (runningMinIdx lst (m + 2)) 0 then m + 2
        else runningMinIdx lst (m + 2)) = runningMinIdx lst (m + 3) := by
      rfl
    have e2 : (if maxAfter lst (m + 1) < growthCand lst (m + 2)
        then some (growthCand lst (m + 2)) else some (maxAfter lst (m + 1))) =
        some (maxAfter lst (m + 2)) := by
      by_cases hlt : maxAfter lst (m + 1) < growthCand lst (m + 2) <;>
        simp [maxAfter, hlt]
    have e3 : (if maxAfter lst (m + 1) < growthCand lst (m + 2)
        then (m + 2) - runningMinIdx lst (m + 2) else disAfter lst (m + 1)) =
        disAfter lst (m + 2) := by
      by_cases hlt : maxAfter lst (m + 1) < growthCand lst (m + 2) <;>
        simp [disAfter, hlt]
    rw [e1, e2, e3]
    have harith : m + 1 + (n + 1) = m + 1 + 1 + n := by omega
    rw [harith]
    exact ih (m + 1)

lemma mdwd_eq_after (lst : List Int) (h2 : 2 ≤ lst.length) :
    mdwdGo lst 1 0 none 0 (lst.length - 1) =
      (some (maxAfter lst (lst.length - 1)), disAfter lst (lst.length - 1)) := by
  obtain ⟨n, hn⟩ : ∃ n, lst.length - 1 = n + 1 := ⟨lst.length - 2, by omega⟩
  rw [hn, mdwdGo_first]
  cases n with
  | zero =>
    rw [mdwdGo]
  | succ k =>
    have hl := mdwdGo_loop lst (k + 1) 0
    rw [(by omega : (0 : Nat) + 1 + (k + 1) = k + 1 + 1)] at hl
    exact hl

lemma mdwd_formula (lst : List Int) (h2 : 2 ≤ lst.length) :
    maxDifferenceWithDistance lst =
      ((max (maxAfter lst (lst.length - 1)) 0 : Int) : ℚ) /
        ((disAfter lst (lst.length - 1) : Nat) : ℚ) := by
  simp [maxDifferenceWithDistance, mdwd_eq_after lst h2]

lemma ite_lt_max (a b : Int) : (if a < b then b else a) = max a b := by
  rw [max_def]
  split_ifs <;> omega

lemma maxAfter_fold (lst : List Int) : ∀ k, 1 ≤ k →
    ((List.range' 2 (k - 1)).map (fun j => growthCand lst j)).foldl max (growthCand lst 1) =
      maxAfter lst k := by
  intro k
  induction k with
  | zero => omega
  | succ m ih =>
    intro _
    cases m with
    | zero => simp [maxAfter]
    | succ m2 =>
      have hm : m2 + 1 + 1 - 1 = m2 + 1 := by omega
      rw [hm, List.range'_concat, List.map_append, List.foldl_append]
      have ihh := ih (by omega)
      have hm2 : m2 + 1 - 1 = m2 := by omega
      rw [hm2] at ihh
      rw [ihh]
      simp only [List.map_cons, List.map_nil, List.foldl_cons, List.foldl_nil]
      rw [(by omega : (2 : Nat) + 1 * m2 = m2 + 2), (by omega : m2 + 1 + 1 = m2 + 2), maxAfter]
      by_cases h : maxAfter lst (m2 + 1) < growthCand lst (m2 + 2)
      · rw [if_pos h]
        exact max_eq_right (le_of_lt h)
      · rw [if_neg h]
        exact max_eq_left (le_of_not_lt h)

lemma le_maxAfter_self (lst : List Int) : ∀ k, 1 ≤ k →
    growthCand lst k ≤ maxAfter lst k := by
  intro k
  induction k with
  | zero => omega
  | succ m _ =>
    intro _
    cases m with
    | zero => simp [maxAfter]
    | succ m2 =>
      rw [maxAfter]
      split_ifs with h
      · exact le_refl _
      · exact le_of_not_lt h

lemma maxAfter_le_succ (lst : List Int) (k : Nat) (hk : 1 ≤ k) :
    maxAfter lst k ≤ maxAfter lst (k + 1) := by
  cases k with
  | zero => omega
  | succ m =>
    rw [maxAfter]
    split_ifs with h
    · exact le_of_lt h
    · exact le_refl _

lemma cand_le_maxAfter (lst : List Int) : ∀ k j, 1 ≤ j → j ≤ k →
    growthCand lst j ≤ maxAfter lst k := by
  intro k
  induction k with
  | zero => intro j h1 h2; omega
  | succ m ih =>
    intro j h1 h2
    by_cases hj : j = m + 1
    · rw [hj]
      exact le_maxAfter_self lst (m + 1) (by omega)
    · have hjm : j ≤ m := by omega
      have hm1 : 1 ≤ m := by omega
      exact le_trans (ih j h1 hjm) (maxAfter_le_succ lst m hm1)

lemma find_first_argmax (lst : List Int) : ∀ k, 1 ≤ k →
    ∃ jstar, (List.range' 1 k).find? (fun j => growthCand lst j = maxAfter lst k) = some jstar ∧
      disAfter lst k = jstar - runningMinIdx lst jstar := by
  intro k
  induction k with
  | zero => omega
  | succ m ih =>
    intro _
    cases m with
    | zero =>
      refine ⟨1, ?_, ?_⟩
      · simp [List.range', List.find?, maxAfter]
      · simp [disAfter, runningMinIdx]
    | succ m2 =>
      by_cases hlt : maxAfter lst (m2 + 1) < growthCand lst (m2 + 2)
      · refine ⟨m2 + 2, ?_, ?_⟩
        · have hmax : maxAfter lst (m2 + 2) = growthCand lst (m2 + 2) := by
            rw [maxAfter, if_pos hlt]
          rw [List.range'_concat, List.find?_append]
          have hnone : (List.range' 1 (m2 + 1)).find?
              (fun j => growthCand lst j = maxAfter lst (m2 + 2)) = none := by
            rw [List.find?_eq_none]
            intro x hx
            have hxr := List.mem_range'_1.mp hx
            have hle : growthCand lst x ≤ maxAfter lst (m2 + 1) :=
              cand_le_maxAfter lst (m2 + 1) x hxr.1 (by omega)
            simp only [decide_eq_true_eq]
            intro heq
            rw [heq, hmax] at hle
            exact absurd hlt (not_lt_of_le hle)
          rw [hnone]
          have hel : (1 : Nat) + (m2 + 1) = m2 + 2 := by omega
          simp [hel, hmax]
        · rw [disAfter, if_pos hlt]
      · obtain ⟨jstar, hfind, hdis⟩ := ih (by omega)
        refine ⟨jstar, ?_, ?_⟩
        · have hmax : maxAfter lst (m2 + 2) = maxAfter lst (m2 + 1) := by
            rw [maxAfter, if_neg hlt]
          rw [List.range'_concat, List.find?_append, hmax, hfind]
          rfl
        · rw [disAfter, if_neg hlt, hdis]

lemma specAliveGrowth_formula (lst : List Int) (h2 : 2 ≤ lst.length) :
    specAliveGrowth lst =
      ((max (maxAfter lst (lst.length - 1)) 0 : Int) : ℚ) /
        ((disAfter lst (lst.length - 1) : Nat) : ℚ) := by
  obtain ⟨k, hk⟩ : ∃ k, lst.length - 1 = k + 1 := ⟨lst.length - 2, by omega⟩
  have hfold : ((List.range' 2 k).map (fun j => growthCand lst j)).foldl max
      (growthCand lst 1) = maxAfter lst (k + 1) := by
    have hmf := maxAfter_fold lst (k + 1) (by omega)
    simpa using hmf
  obtain ⟨jstar, hfind, hdis⟩ := find_first_argmax lst (k + 1) (by omega)
  rw [specAliveGrowth, hk]
  have hlist2 : (List.range' 1 (k + 1)).map (fun j => growthCand lst j) =
      growthCand lst 1 :: (List.range' 2 k).map (fun j => growthCand lst j) := by
    rw [List.range'_succ, List.map_cons]
  rw [hlist2]
  simp only [hfold]
  rw [hfind]
  simp only []
  rw [← hdis]

end GA

/-!  Claim theorems.  -/

/-- C1: for every N×N binary grid, one simulation step computes, for every
cell, the number of live cells among its 8 toroidal (wrap-around)
neighbors, and produces the next grid in which a live cell is live iff its
neighbor count is 2 or 3, a dead cell becomes live iff its neighbor count
is exactly 3, and every other cell is dead. -/
theorem step_neighbor_rule (N : Nat) (g : GoL.Config) (i : Nat) (hi : i < N * N)
    (hbin : ∀ x ∈ g, x = 0 ∨ x = 1) :
    GoL.countAliveNeighbors N g i =
      (GoL.posList N i).countP (fun q => g.getD q 0 = 1) ∧
    (GoL.computeNextGeneration N g).length = N * N ∧
    ((GoL.computeNextGeneration N g).getD i 0 = 1 ↔
      ((g.getD i 0 = 1 ∧
          (GoL.countAliveNeighbors N g i = 2 ∨ GoL.countAliveNeighbors N g i = 3)) ∨
       (g.getD i 0 = 0 ∧ GoL.countAliveNeighbors N g i = 3))) ∧
    ((GoL.computeNextGeneration N g).getD i 0 = 0 ∨
      (GoL.computeNextGeneration N g).getD i 0 = 1) := by
  refine ⟨?_, GoL.length_computeNextGeneration N g, ?_, ?_⟩
  · rw [GoL.count_eq_specSum]
    have h1 : GoL.specNeighborSum N g i = ((GoL.posList N i).map (fun q => g.getD q 0)).sum := by
      rw [GoL.specNeighborSum, GoL.posList, List.map_map]
      rfl
    have h2 : ∀ x ∈ (GoL.posList N i).map (fun q => g.getD q 0), x = 0 ∨ x = 1 := by
      intro x hx
      rw [List.mem_map] at hx
      obtain ⟨q, _, hq⟩ := hx
      rw [← hq]
      exact GoL.getD_binary g hbin q
    rw [h1, GoL.sum_eq_countP_of_binary _ h2, List.countP_map]
    rfl
  · rw [GoL.getD_computeNextGeneration N g i hi]
    split
    · simp_all
    · simp_all
  · rw [GoL.getD_computeNextGeneration N g i hi]
    split
    · right; rfl
    · left; rfl

/-- C1 witness: the neighbor-count contract instantiated at the center of
a 3×3 vertical blinker. -/
theorem step_neighbor_rule_witness :
    GoL.countAliveNeighbors 3 [0, 1, 0, 0, 1, 0, 0, 1, 0] 4 =
      (GoL.posList 3 4).countP
        (fun q => [0, 1, 0, 0, 1, 0, 0, 1, 0].getD q 0 = 1) :=
  (step_neighbor_rule 3 [0, 1, 0, 0, 1, 0, 0, 1, 0] 4 (by decide) (by decide)).1

/-- C3 (counterexample): the claim says a single isolated live cell
terminates Static with lifespan 0; on a 3×3 grid with one live cell the
run is indeed Static but the recorded lifespan is 1. -/
theorem single_cell_lifespan_counterexample :
    (GoL.simRun (GoL.initSim 3 [0, 0, 0, 0, 1, 0, 0, 0, 0])).isStatic = true ∧
    (GoL.simRun (GoL.initSim 3 [0, 0, 0, 0, 1, 0, 0, 0, 0])).lifespan = 1 ∧
    ¬ (GoL.simRun (GoL.initSim 3 [0, 0, 0, 0, 1, 0, 0, 0, 0])).lifespan = 0 := by
  decide

/-- C3 (amended): for every grid containing exactly one live cell, the
simulation run terminates as Static (never Periodic) with lifespan equal
to 1: the run loop counts the initial generation into `lifespan` before
the step that kills the cell, and only then detects the all-dead grid. -/
theorem single_cell_static_lifespan_one (N p : Nat) (hN : 1 ≤ N) (hp : p < N * N) :
    (GoL.simRun (GoL.initSim N (GoL.singleCell (N * N) p))).isStatic = true ∧
    (GoL.simRun (GoL.initSim N (GoL.singleCell (N * N) p))).lifespan = 1 ∧
    (GoL.simRun (GoL.initSim N (GoL.singleCell (N * N) p))).isPeriodic = false := by
  have hIter := GoL.runIteration_singleCell N p hN hp
  have hsum := GoL.singleCell_sum (N * N) p hp
  have h150 : (150000 : Nat) = 149999 + 1 := by norm_num
  have h149 : (149999 : Nat) = 149998 + 1 := by norm_num
  have e1 : GoL.simRun (GoL.initSim N (GoL.singleCell (N * N) p)) =
      GoL.runLoop 149999 (GoL.runIteration (GoL.initSim N (GoL.singleCell (N * N) p))) := by
    rw [GoL.simRun, h150, GoL.runLoop_succ]
    simp [GoL.initSim, hsum]
  rw [e1, hIter, h149, GoL.runLoop_succ]
  simp [List.sum_replicate]

/-- C3 witness: the amended statement instantiated at the center cell of a
3×3 grid. -/
theorem single_cell_static_lifespan_one_witness :
    (GoL.simRun (GoL.initSim 3 (GoL.singleCell 9 4))).isStatic = true ∧
    (GoL.simRun (GoL.initSim 3 (GoL.singleCell 9 4))).lifespan = 1 ∧
    (GoL.simRun (GoL.initSim 3 (GoL.singleCell 9 4))).isPeriodic = false :=
  single_cell_static_lifespan_one 3 4 (by norm_num) (by norm_num)

/-- C10: in every simulation run, a generation whose step leaves the run
still Running (the new state is neither equal to the current one nor
previously seen, and the grid is not all dead) appends the pre-step grid
to the recorded history twice — once in the run loop and once inside
`step` — so the trajectory gains two consecutive duplicate entries. -/
theorem running_step_appends_twice (s : GoL.SimState) (l : Nat)
    (hst : s.isStatic = false) (hper : s.isPeriodic = false)
    (halive : s.grid.sum ≠ 0)
    (hnext : GoL.computeNextGeneration s.gridSize s.grid ≠ s.grid)
    (hseen : GoL.computeNextGeneration s.gridSize s.grid ∉ s.uniqueStates) :
    GoL.runLoop (l + 1) s = GoL.runLoop l (GoL.runIteration s) ∧
    (GoL.runIteration s).history = s.history ++ [s.grid, s.grid] := by
  constructor
  · rw [GoL.runLoop_succ]
    simp [hst, hper, halive]
  · rw [GoL.runIteration]
    simp [GoL.simStep, hst, hper, hnext, hseen]

/-- C10 witness: the duplicate-append behavior on the concrete first step
of a single-live-cell 3×3 run. -/
theorem running_step_appends_twice_witness :
    GoL.runLoop 1 (GoL.initSim 3 [1, 0, 0, 0, 0, 0, 0, 0, 0]) =
      GoL.runLoop 0 (GoL.runIteration (GoL.initSim 3 [1, 0, 0, 0, 0, 0, 0, 0, 0])) ∧
    (GoL.runIteration (GoL.initSim 3 [1, 0, 0, 0, 0, 0, 0, 0, 0])).history =
      (GoL.initSim 3 [1, 0, 0, 0, 0, 0, 0, 0, 0]).history ++
        [[1, 0, 0, 0, 0, 0, 0, 0, 0], [1, 0, 0, 0, 0, 0, 0, 0, 0]] :=
  running_step_appends_twice (GoL.initSim 3 [1, 0, 0, 0, 0, 0, 0, 0, 0]) 0
    (by decide) (by decide) (by decide) (by decide) (by decide)

/-- C2: for every configuration, a repeated `evaluate` call returns the
bit-identical record, leaves the cache unchanged and runs no simulation
(it is answered from the cache); and over a whole optimization run (any
sequence of `evaluate` calls starting from the empty cache) each distinct
configuration is simulated at most once. -/
theorem evaluate_idempotent_cached_once (p : GA.GAParams) :
    (∀ (cache : GA.Cache) (cfg : GoL.Config) (r : GA.EvalRecord) (cache2 : GA.Cache) (b : Bool),
        GA.evaluate p cache cfg = (.ok r, cache2, b) →
        GA.evaluate p cache2 cfg = (.ok r, cache2, false)) ∧
    (∀ (calls : List GoL.Config) (cfg : GoL.Config),
        ((GA.evalCalls p [] calls).2.count cfg) ≤ 1) := by
  constructor
  · intro cache cfg r cache2 b h
    have hl2 := GA.evaluate_ok_lookup p cache cfg r cache2 b h
    simp [GA.evaluate, hl2]
  · intro calls cfg
    exact GA.evalCalls_count_le_one p calls [] cfg

/-- C2 witness: re-evaluating the 1×1 all-dead configuration is answered
from the cache with no simulation. -/
theorem evaluate_idempotent_cached_once_witness :
    GA.evaluate GA.testParams [([0], GA.freshEval GA.testParams [0])] [0] =
      (.ok (GA.freshEval GA.testParams [0]),
        [([0], GA.freshEval GA.testParams [0])], false) :=
  (evaluate_idempotent_cached_once GA.testParams).1 [] [0]
    (GA.freshEval GA.testParams [0]) [([0], GA.freshEval GA.testParams [0])] true rfl

/-- C6: when every cached key has the correct length, `evaluate` raises
exactly when the input length differs from `grid_size²` (never silently
correcting it), and a raising call leaves the cache unchanged and runs no
simulation. -/
theorem evaluate_length_error_iff (p : GA.GAParams) (cache : GA.Cache) (cfg : GoL.Config)
    (hcache : ∀ e ∈ cache, e.1.length = p.gridSize * p.gridSize) :
    ((∃ msg, (GA.evaluate p cache cfg).1 = .error msg) ↔
      cfg.length ≠ p.gridSize * p.gridSize) ∧
    (cfg.length ≠ p.gridSize * p.gridSize →
      (GA.evaluate p cache cfg).2.1 = cache ∧ (GA.evaluate p cache cfg).2.2 = false) := by
  cases hl : cache.lookup cfg with
  | some r =>
    obtain ⟨e, he, hfst⟩ := GA.lookup_some_key cache cfg r hl
    have hlen : cfg.length = p.gridSize * p.gridSize := by
      rw [← hfst]
      exact hcache e he
    constructor
    · constructor
      · intro ⟨msg, hmsg⟩
        simp [GA.evaluate, hl] at hmsg
      · intro hne
        exact absurd hlen hne
    · intro hne
      exact absurd hlen hne
  | none =>
    by_cases hlen : cfg.length ≠ p.gridSize * p.gridSize
    · constructor
      · constructor
        · intro _
          exact hlen
        · intro _
          exact ⟨"Configuration size mismatch", by simp [GA.evaluate, hl, hlen]⟩
      · intro _
        constructor <;> simp [GA.evaluate, hl, hlen]
    · constructor
      · constructor
        · intro ⟨msg, hmsg⟩
          simp [GA.evaluate, hl, hlen] at hmsg
        · intro hne
          exact absurd hne hlen
      · intro hne
        exact absurd hne hlen

/-- C6 witness: a length-2 input against a 1×1 grid raises and leaves the
empty cache unchanged with no simulation run. -/
theorem evaluate_length_error_iff_witness :
    (GA.evaluate GA.testParams [] [0, 0]).2.1 = [] ∧
    (GA.evaluate GA.testParams [] [0, 0]).2.2 = false :=
  (evaluate_length_error_iff GA.testParams [] [0, 0] (by simp)).2 (by decide)

/-- C5 (code bug): when the evaluated population has total fitness 0,
`roulette_wheel_selection` does not recover by returning a uniform random
member: the source calls `random.choice(self.population)` on a Python
`set`, which raises `TypeError`. -/
theorem roulette_zero_fitness_raises (p : GA.GAParams) (cache : GA.Cache)
    (pop : List GoL.Config) (idx : Nat) (scored : List (GoL.Config × ℚ)) (cache2 : GA.Cache)
    (hscores : GA.evalScores p cache pop = (.ok scored, cache2))
    (hzero : (scored.map Prod.snd).sum = 0) :
    GA.rouletteWheelSelection p cache pop idx =
      (.error "TypeError: random.choice on a set object", cache2) := by
  rw [GA.rouletteWheelSelection, hscores]
  simp [hzero]

/-- C5 witness: the all-dead 1×1 configuration has fitness 0, and the
roulette selection on that one-member population raises. -/
theorem roulette_zero_fitness_raises_witness :
    GA.rouletteWheelSelection GA.testParams [] [[0]] 0 =
      (.error "TypeError: random.choice on a set object",
        [([0], GA.freshEval GA.testParams [0])]) :=
  roulette_zero_fitness_raises GA.testParams [] [[0]] 0
    [([0], (GA.freshEval GA.testParams [0]).fitnessScore)]
    [([0], GA.freshEval GA.testParams [0])] rfl (by simp [GA.freshEval_zero1])

/-- C8: assuming 0 < mutation_rate_lower_limit ≤ 1 and a current rate in
[lower_limit, 1], both the per-generation adaptive update and the
stagnation check return a mutation rate within [lower_limit, 1]. -/
theorem mutation_rate_bounds (p : GA.GAParams) (rate prevAvg curAvg : ℚ)
    (lastGen : Nat) (avgOf : Nat → ℚ)
    (hl0 : 0 < p.mutationRateLowerLimit) (hl1 : p.mutationRateLowerLimit ≤ 1)
    (hr1 : p.mutationRateLowerLimit ≤ rate) (hr2 : rate ≤ 1) :
    (p.mutationRateLowerLimit ≤ GA.adjustMutationRate p rate prevAvg curAvg ∧
      GA.adjustMutationRate p rate prevAvg curAvg ≤ 1) ∧
    (p.mutationRateLowerLimit ≤ GA.checkForStagnation p rate lastGen avgOf ∧
      GA.checkForStagnation p rate lastGen avgOf ≤ 1) := by
  constructor
  · constructor
    · exact le_max_left _ _
    · exact max_le hl1 (min_le_left _ _)
  · simp only [GA.checkForStagnation]
    split_ifs with h1 h2 h3
    · exact ⟨hr1, hr2⟩
    · exact ⟨le_max_right _ _,
        max_le (le_trans (min_le_left _ _) (by norm_num)) hl1⟩
    · exact ⟨le_max_right _ _,
        max_le (le_trans (min_le_left _ _) (by norm_num)) hl1⟩
    · exact ⟨le_max_right _ _, max_le hr2 hl1⟩

/-- C8 witness: the bounds instantiated at rate 1/2 with the concrete
parameter bundle. -/
theorem mutation_rate_bounds_witness :
    (GA.testParams.mutationRateLowerLimit ≤ GA.adjustMutationRate GA.testParams (1 / 2) 0 0 ∧
      GA.adjustMutationRate GA.testParams (1 / 2) 0 0 ≤ 1) ∧
    (GA.testParams.mutationRateLowerLimit ≤
        GA.checkForStagnation GA.testParams (1 / 2) 0 (fun _ => 0) ∧
      GA.checkForStagnation GA.testParams (1 / 2) 0 (fun _ => 0) ≤ 1) :=
  mutation_rate_bounds GA.testParams (1 / 2) 0 0 0 (fun _ => 0)
    (by norm_num [GA.testParams]) (by norm_num [GA.testParams])
    (by norm_num [GA.testParams]) (by norm_num)

/-- C9 (counterexample): with `population_size = 10`, the generation whose
statistics count is a multiple of 5 injects an *empty* enrichment batch:
25% of the population would be `10 / 4 = 2` fresh individuals, but the
per-family amount is `(10 / 4) / 3 = 0`, so 0 individuals are generated. -/
theorem enrich_batch_quarter_counterexample :
    GA.numNewIndividuals GA.testParams10 = 2 ∧
    GA.enrichPerFamily GA.testParams10 = 0 ∧
    GA.populateEnrichBatch GA.testParams10 0 GA.unitEnrichOracle = .ok [] ∧
    ¬ (3 * GA.enrichPerFamily GA.testParams10 = GA.numNewIndividuals GA.testParams10) :=
  ⟨rfl, rfl, rfl, by decide⟩

/-- C9 (amended): whenever the count of recorded generation-statistics
entries is a multiple of 5, the candidate pool of `populate` is augmented,
before ranking, with a freshly generated batch of
`(population_size / 4) / 3` individuals from each of the three generator
families (clusters, scattered cells, block patterns) — so
`3 * ((population_size / 4) / 3)` in total, which equals 25% of
`population_size` only when `population_size / 4` is divisible by 3; when
the count is not a multiple of 5, no fresh individuals are generated. -/
theorem enrich_batch_amended (p : GA.GAParams) (genStatsCount : Nat)
    (eo : GA.EnrichOracle) (fresh : List GoL.Config) :
    (genStatsCount % 5 = 0 →
      GA.populateEnrichBatch p genStatsCount eo =
        GA.enrichVarietyList p.gridSize (GA.enrichPerFamily p) (GA.enrichPerFamily p)
          (GA.enrichPerFamily p) eo) ∧
    (GA.populateEnrichBatch p genStatsCount eo = .ok fresh → genStatsCount % 5 = 0 →
      fresh.length = 3 * GA.enrichPerFamily p) ∧
    (genStatsCount % 5 ≠ 0 → GA.populateEnrichBatch p genStatsCount eo = .ok []) := by
  refine ⟨?_, ?_, ?_⟩
  · intro h
    simp [GA.populateEnrichBatch, h]
  · intro hok h
    rw [GA.populateEnrichBatch, if_pos h] at hok
    have hlen := GA.enrichVarietyList_length p.gridSize _ _ _ eo fresh hok
    omega
  · intro h
    simp [GA.populateEnrichBatch, h]

/-- C9 witness: the amended count instantiated at `population_size = 10`
and generation-statistics count 0. -/
theorem enrich_batch_amended_witness :
    ([] : List GoL.Config).length = 3 * GA.enrichPerFamily GA.testParams10 :=
  (enrich_batch_amended GA.testParams10 0 GA.unitEnrichOracle []).2.1 rfl rfl

/-- C7: after a generation's population turnover in `populate` (merge the
previous population with the candidates, rank by fitness descending, keep
the top unique configurations), the resulting population has at most
`population_size` members and every member has length exactly
`grid_size²`, provided the incoming population members do. -/
theorem population_turnover_bounds (p : GA.GAParams) (genStatsCount : Nat)
    (cache : GA.Cache) (pop : List GoL.Config) (io : Nat → GA.IterOracle)
    (eo : GA.EnrichOracle) (newPop : List GoL.Config) (cache2 : GA.Cache)
    (hpop : ∀ c ∈ pop, c.length = p.gridSize * p.gridSize)
    (h : GA.populate p genStatsCount cache pop io eo = (.ok newPop, cache2)) :
    newPop.length ≤ p.populationSize ∧
    ∀ c ∈ newPop, c.length = p.gridSize * p.gridSize := by
  rw [GA.populate] at h
  cases hc : GA.childrenLoop p pop io cache [] p.populationSize with
  | mk res1 cacheB =>
    rw [hc] at h
    cases res1 with
    | error e => simp at h
    | ok children =>
      simp only [] at h
      have hchild : ∀ c ∈ children, c.length = p.gridSize * p.gridSize :=
        GA.childrenLoop_lengths p pop io hpop p.populationSize cache [] children cacheB
          (by simp) hc
      cases hb : GA.populateEnrichBatch p genStatsCount eo with
      | error e => rw [hb] at h; simp at h
      | ok fresh =>
        rw [hb] at h
        simp only [] at h
        by_cases h5 : genStatsCount % 5 = 0
        · rw [if_pos h5] at h
          have hfresh : ∀ c ∈ fresh, c.length = p.gridSize * p.gridSize := by
            rw [GA.populateEnrichBatch, if_pos h5] at hb
            exact GA.enrichVarietyList_mem_length p.gridSize _ _ _ eo fresh hb
          have hcomb : ∀ c ∈ (GA.setUnion pop fresh ++
              GA.setUnion children (GA.setDiff (GA.setUnion pop fresh) children)),
              c.length = p.gridSize * p.gridSize := by
            intro c hcm
            rcases List.mem_append.mp hcm with h1 | h1
            · rcases GA.mem_setUnion fresh pop c h1 with h2 | h2
              · exact hpop c h2
              · exact hfresh c h2
            · rcases GA.mem_setUnion _ children c h1 with h2 | h2
              · exact hchild c h2
              · have h3 := GA.mem_setDiff _ children c h2
                rcases GA.mem_setUnion fresh pop c h3 with h4 | h4
                · exact hpop c h4
                · exact hfresh c h4
          obtain ⟨hlen, hmem⟩ := GA.rankAndTrim_spec p cacheB _ newPop cache2 h
          exact ⟨hlen, fun c hcm => hcomb c (hmem c hcm)⟩
        · rw [if_neg h5] at h
          have hcomb : ∀ c ∈ (pop ++ children), c.length = p.gridSize * p.gridSize := by
            intro c hcm
            rcases List.mem_append.mp hcm with h1 | h1
            · exact hpop c h1
            · exact hchild c h1
          obtain ⟨hlen, hmem⟩ := GA.rankAndTrim_spec p cacheB _ newPop cache2 h
          exact ⟨hlen, fun c hcm => hcomb c (hmem c hcm)⟩

/-- C7 witness: a full concrete `populate` call on the 1×1 grid with a
one-member population. -/
theorem population_turnover_bounds_witness :
    ([[0]] : List GoL.Config).length ≤ GA.testParams.populationSize ∧
    ∀ c ∈ ([[0]] : List GoL.Config),
      c.length = GA.testParams.gridSize * GA.testParams.gridSize :=
  population_turnover_bounds GA.testParams 1 [] [[0]] (fun _ => GA.unitIterOracle)
    GA.unitEnrichOracle [[0]] [([0], GA.freshEval GA.testParams [0])] (by decide)
    (by
      have hch : GA.childrenLoop GA.testParams [[0]] (fun _ => GA.unitIterOracle) [] [] 3 =
          (.ok [[0]], [([0], GA.freshEval GA.testParams [0])]) := rfl
      have hb : GA.populateEnrichBatch GA.testParams 1 GA.unitEnrichOracle =
          Except.ok [] := rfl
      have hsc : GA.evalScores GA.testParams [([0], GA.freshEval GA.testParams [0])]
          ([[0]] ++ [[0]]) =
          (.ok [([0], (GA.freshEval GA.testParams [0]).fitnessScore),
                ([0], (GA.freshEval GA.testParams [0]).fitnessScore)],
            [([0], GA.freshEval GA.testParams [0])]) := rfl
      have hps : GA.testParams.populationSize = 3 := rfl
      simp only [GA.populate, hps, hch, hb]
      rw [if_neg (by decide : ¬(1 % 5 = 0))]
      simp only [GA.rankAndTrim, hsc, GA.freshEval_zero1]
      rfl)

/-- C4: for every alive-count history of length at least 2, `alive_growth`
(`max_difference_with_distance`) equals the maximum of
`(count[j] - count[i]) * (j - i)` over indices `i < j` with `i` the
running-minimum prefix index, floored at 0 and divided by the `j - i`
distance at which that maximum is first attained; in particular on
`[1, 2, 4, 8]` it equals 7. -/
theorem alive_growth_spec (lst : List Int) (h2 : 2 ≤ lst.length) :
    GA.maxDifferenceWithDistance lst = GA.specAliveGrowth lst ∧
    GA.maxDifferenceWithDistance [1, 2, 4, 8] = 7 := by
  constructor
  · rw [GA.mdwd_formula lst h2, GA.specAliveGrowth_formula lst h2]
  · have hgo : GA.mdwdGo [1, 2, 4, 8] 1 0 none 0 3 = (some 21, 3) := by decide
    simp [GA.maxDifferenceWithDistance, hgo]
    norm_num

/-- C4 witness: the spec equation and the concrete value on `[1, 2, 4, 8]`. -/
theorem alive_growth_spec_witness :
    GA.maxDifferenceWithDistance [1, 2, 4, 8] = GA.specAliveGrowth [1, 2, 4, 8] ∧
    GA.maxDifferenceWithDistance [1, 2, 4, 8] = 7 :=
  alive_growth_spec [1, 2, 4, 8] (by decide)
